import Mathlib

/-!
# Verification of the pdmt task-graph integrity and quality-validation engine

Shallow embedding of the todo-list data model (`src/models/todo.rs`), the
dependency-graph analyzer (`TodoList::validate_dependencies`), the per-item and
list validators (`src/validators/todo.rs`) and the threshold-gate evaluator
(`src/quality/gates.rs`), together with proofs of the specified properties.

Modelling conventions:
* Rust `String` is modelled by Lean `String`; `to_lowercase`, `starts_with`,
  `contains` and `matches(..).count` are modelled by the char-list functions
  below (exact on ASCII content, which is all the fixed keyword tables use).
* Rust `f32`/`f64` values are modelled by exact rationals (`Rat`); the claims
  about them are stated over this exact arithmetic.
* Rust machine integers are modelled by `Nat` with explicit `% 2 ^ w`
  truncation where the source performs an `as` cast that can overflow
  (`(action_count / 2) as u8` in `Todo::complexity_score`).
* `HashMap`/`HashSet` iteration order is unspecified in Rust; the embedding
  fixes the first-insertion order (first occurrence in `todos` order), one of
  the behaviours the source admits.
-/

namespace Pdmt

/-- Lower-casing of a string, modelling Rust `str::to_lowercase`
(identical on ASCII content). -/
def lowerStr (s : String) : String :=
  String.mk (s.data.map Char.toLower)

/-- Byte/char length of content; the keyword tables and claims are ASCII,
where Rust `str::len` agrees with the char count. -/
def strLen (s : String) : Nat :=
  s.data.length

/-- `pat` occurs as a prefix of `s`, modelling Rust `str::starts_with`. -/
def startsWith (s pat : String) : Bool :=
  List.isPrefixOf pat.data s.data

/-- `pat` occurs as a contiguous sublist of `l`. -/
def infixOfList (pat : List Char) : List Char → Bool
  | [] => List.isPrefixOf pat []
  | c :: rest => List.isPrefixOf pat (c :: rest) || infixOfList pat rest

/-- `pat` occurs as a substring of `s`, modelling Rust `str::contains`. -/
def containsStr (s pat : String) : Bool :=
  infixOfList pat.data s.data

/-- Fuel-indexed helper for `countMatchesList`; every step shortens the list,
so fuel `l.length` reproduces the unbounded scan. -/
def countMatchesAux (pat : List Char) : Nat → List Char → Nat
  | 0, _ => 0
  | _ + 1, [] => 0
  | fuel + 1, c :: rest =>
      if pat ≠ [] ∧ List.isPrefixOf pat (c :: rest) then
        1 + countMatchesAux pat fuel ((c :: rest).drop pat.length)
      else
        countMatchesAux pat fuel rest

/-- Number of non-overlapping, left-to-right occurrences of `pat` in `l`,
modelling Rust `str::matches(pat).count()` for a non-empty pattern. -/
def countMatchesList (pat l : List Char) : Nat :=
  countMatchesAux pat l.length l

/-- `str::matches(pat).count()` on strings. -/
def countMatches (s pat : String) : Nat :=
  countMatchesList pat.data s.data

/-- Todo status (`TodoStatus` in `src/models/todo.rs`). -/
inductive TodoStatus where
  | Pending
  | InProgress
  | Completed
  | Blocked
  | Cancelled
deriving DecidableEq, Repr

/-- Todo priority (`TodoPriority`). -/
inductive TodoPriority where
  | Low
  | Medium
  | High
  | Critical
deriving DecidableEq, Repr

/-- Quality gates of an individual todo (`TodoQualityGates`); the
`custom_checks` map is modelled as an association list. -/
structure TodoQualityGates where
  complexity_check : Bool
  completeness_check : Bool
  actionability_check : Bool
  time_estimate_check : Bool
  custom_checks : List (String × Bool)
deriving DecidableEq, Repr

/-- An individual todo item (`Todo`).  `estimated_hours : Option Rat` models
`Option<f32>`; `custom_fields` values are irrelevant to every embedded
operation and are modelled as an association list of field names. -/
structure Todo where
  id : String
  content : String
  status : TodoStatus
  priority : TodoPriority
  estimated_hours : Option Rat
  dependencies : List String
  quality_gates : TodoQualityGates
  tags : List String
  assignee : Option String
  custom_fields : List String
deriving DecidableEq, Repr

/-- Metadata of a todo list (`TodoListMetadata`); the count maps are
association lists in first-insertion order. -/
structure TodoListMetadata where
  total_count : Nat
  status_counts : List (TodoStatus × Nat)
  priority_counts : List (TodoPriority × Nat)
  total_estimated_hours : Rat
  avg_estimated_hours : Rat
  completion_percentage : Rat
  dependency_graph_valid : Bool
  template_version : String
  custom_metadata : List String
deriving DecidableEq, Repr

/-- Project context (`ProjectContext`). -/
structure ProjectContext where
  name : String
  description : Option String
  project_type : Option String
  stakeholders : List String
  tech_stack : List String
  budget_hours : Option Rat
deriving DecidableEq, Repr

/-- A complete todo list (`TodoList`). -/
structure TodoList where
  todos : List Todo
  metadata : TodoListMetadata
  project : Option ProjectContext
deriving DecidableEq, Repr

/-- Quality configuration (`TodoQualityConfig`). -/
structure TodoQualityConfig where
  max_todos_per_batch : Option Nat
  min_task_detail_chars : Option Nat
  max_task_detail_chars : Option Nat
  max_complexity_per_task : Option Nat
  require_time_estimates : Bool
  require_specific_actions : Bool
  require_dependency_graph : Bool
  prevent_circular_dependencies : Bool
  min_estimated_hours : Option Rat
  max_estimated_hours : Option Rat
deriving DecidableEq, Repr

/-- Default quality configuration (`TodoQualityConfig::default`). -/
def TodoQualityConfig.default : TodoQualityConfig where
  max_todos_per_batch := some 50
  min_task_detail_chars := some 10
  max_task_detail_chars := some 100
  max_complexity_per_task := some 8
  require_time_estimates := true
  require_specific_actions := true
  require_dependency_graph := true
  prevent_circular_dependencies := true
  min_estimated_hours := some (1 / 2)
  max_estimated_hours := some 40

/-- The fixed action-verb table of `Todo::is_actionable`. -/
def actionableVerbs : List String :=
  ["implement", "create", "build", "write", "add", "remove", "update", "fix",
   "test", "deploy", "configure", "setup", "install", "design", "develop",
   "refactor", "optimize", "migrate", "integrate", "debug", "analyze",
   "research", "document", "validate", "verify", "review"]

/-- `Todo::is_actionable`: the lower-cased content starts with an action verb. -/
def Todo.is_actionable (t : Todo) : Bool :=
  let lower_content := lowerStr t.content
  actionableVerbs.any fun verb => startsWith lower_content verb

/-- `Todo::has_valid_length`. -/
def Todo.has_valid_length (t : Todo) (min_chars max_chars : Nat) : Bool :=
  let len := strLen t.content
  min_chars ≤ len ∧ len ≤ max_chars

/-- The fixed complexity-word table of `Todo::complexity_score`. -/
def complexityWords : List String :=
  ["integrate", "refactor", "optimize", "migrate", "analyze", "algorithm",
   "performance", "security", "architecture"]

/-- `Todo::complexity_score`.  The running `score` is a Rust `u8`, so every
addition is performed modulo `2 ^ 8`, and the `(action_count / 2) as u8` cast
truncates to the low 8 bits. -/
def Todo.complexity_score (t : Todo) : Nat :=
  let content := lowerStr t.content
  let score := 1
  let score := complexityWords.foldl
    (fun score word => if containsStr content word then (score + 1) % 2 ^ 8 else score)
    score
  let score :=
    if containsStr content "database" || containsStr content "api" ||
        containsStr content "system" then
      (score + 1) % 2 ^ 8
    else score
  let action_count := countMatches content " and " + countMatches content ", "
  let score := (score + action_count / 2 % 2 ^ 8) % 2 ^ 8
  min score 10

/-! ## Dependency graph analyzer (`TodoList::validate_dependencies`)

The source builds `HashMap`s `graph` (id ↦ dependency list, later inserts
overwriting earlier ones) and `in_degree` (id ↦ number of todos listing it as
a dependency), runs Kahn's algorithm, and on failure walks one best-effort
cycle.  The embedding fixes a deterministic iteration order for the hash
containers (the order `List.dedup` yields on the id list); `in_degree` is a
total function meaningful on the key set. -/

/-- The key set of the `graph`/`in_degree` maps: the distinct todo ids. -/
def TodoList.keyIds (l : TodoList) : List String :=
  (l.todos.map Todo.id).dedup

/-- `graph.get(id)`: the dependency list of the last todo with this id
(`HashMap::insert` overwrites), or `none` when no todo has the id. -/
def graphGet (l : TodoList) (id : String) : Option (List String) :=
  (l.todos.reverse.find? (fun t => t.id == id)).map Todo.dependencies

/-- The adjacency list actually used by the loop (`None` treated as empty). -/
def graphDeps (l : TodoList) (id : String) : List String :=
  (graphGet l id).getD []

/-- Total number of occurrences of `v` across all dependency lists; this is
the initial `in_degree` of a key `v`. -/
def totalCnt (l : TodoList) (v : String) : Nat :=
  (l.todos.map fun t => t.dependencies.count v).sum

/-- Initial `in_degree` map as a function (zero off the key set). -/
def initIndeg (l : TodoList) (v : String) : Nat :=
  if v ∈ l.keyIds then totalCnt l v else 0

/-- Inner loop of Kahn's algorithm: decrement the in-degree of each
neighbour that is a key, enqueueing it when it reaches zero. -/
def processNeighbors (keys : List String) :
    List String → List String → (String → Nat) → List String × (String → Nat)
  | [], queue, indeg => (queue, indeg)
  | nb :: rest, queue, indeg =>
      if nb ∈ keys then
        let d := indeg nb - 1
        let indeg' := Function.update indeg nb d
        let queue' := if d = 0 then queue ++ [nb] else queue
        processNeighbors keys rest queue' indeg'
      else
        processNeighbors keys rest queue indeg

/-- The `while let Some(current) = queue.pop_front()` loop.  The loop makes at
most one iteration per key (proved below), so running it with fuel
`keys.length` reproduces the source's unbounded loop. -/
def kahnLoop (l : TodoList) (keys : List String) :
    Nat → List String → (String → Nat) → Nat → (String → Nat) × Nat
  | 0, _, indeg, processed => (indeg, processed)
  | _ + 1, [], indeg, processed => (indeg, processed)
  | fuel + 1, current :: rest, indeg, processed =>
      let neighbors := graphDeps l current
      let qi := processNeighbors keys neighbors rest indeg
      kahnLoop l keys fuel qi.1 qi.2 (processed + 1)

/-- Run Kahn's algorithm, returning the final `in_degree` map and the number
of processed nodes. -/
def kahnRun (l : TodoList) : (String → Nat) × Nat :=
  let keys := l.keyIds
  let queue0 := keys.filter fun v => initIndeg l v == 0
  kahnLoop l keys keys.length queue0 (initIndeg l) 0

/-- The unprocessed nodes: keys whose in-degree stayed positive. -/
def remainingList (l : TodoList) (indeg : String → Nat) : List String :=
  l.keyIds.filter fun v => 0 < indeg v

/-- The cycle-reconstruction walk: from `current`, repeatedly step to the
first dependency that is still unresolved, until a repeat or a dead end.
Each iteration adds one unvisited node, so fuel `remaining.length + 1`
reproduces the source's unbounded loop. -/
def cycleWalk (l : TodoList) (remaining : List String) :
    Nat → String → List String → List String → List String
  | 0, _, _, cyc => cyc
  | fuel + 1, current, visited, cyc =>
      if current ∈ visited then cyc
      else
        let visited' := current :: visited
        let cyc' := cyc ++ [current]
        match graphGet l current with
        | some deps =>
            match deps.find? (fun dep => remaining.contains dep) with
            | some next => cycleWalk l remaining fuel next visited' cyc'
            | none => cyc'
        | none => cyc'

/-- Cycle reconstruction (`if let Some(start) = remaining.iter().next()`). -/
def findCycle (l : TodoList) (indeg : String → Nat) : List String :=
  let remaining := remainingList l indeg
  match remaining with
  | [] => []
  | start :: _ => cycleWalk l remaining (remaining.length + 1) start [] []

/-- `TodoList::validate_dependencies`. -/
def TodoList.validate_dependencies (l : TodoList) : Except (List String) Unit :=
  let r := kahnRun l
  if r.2 ≠ l.todos.length then Except.error (findCycle l r.1)
  else Except.ok ()

/-- The dependency relation: `u` depends on `v` (an edge of the graph the
spec speaks about, from a todo to each id in its dependency list). -/
def DepEdge (l : TodoList) (u v : String) : Prop :=
  ∃ t ∈ l.todos, t.id = u ∧ v ∈ t.dependencies

instance (l : TodoList) : DecidableRel (DepEdge l) := fun u v =>
  inferInstanceAs (Decidable (∃ t ∈ l.todos, t.id = u ∧ v ∈ t.dependencies))

/-- Acyclicity of the dependency graph: no node reaches itself through a
non-empty chain of dependency edges. -/
def Acyclic (l : TodoList) : Prop :=
  ∀ x, ¬ Relation.TransGen (DepEdge l) x x

/-- The claim's notion of a valid cycle witness: a non-empty sequence in
which each element depends on the next and the last element depends back on
some element of the sequence. -/
def ValidCycleWitness (l : TodoList) (cyc : List String) : Prop :=
  cyc ≠ [] ∧ List.Chain' (DepEdge l) cyc ∧
    ∃ y ∈ cyc.getLast?.toList, ∃ x ∈ cyc, DepEdge l y x

instance (l : TodoList) (cyc : List String) : Decidable (ValidCycleWitness l cyc) :=
  inferInstanceAs (Decidable (cyc ≠ [] ∧ List.Chain' (DepEdge l) cyc ∧
    ∃ y ∈ cyc.getLast?.toList, ∃ x ∈ cyc, DepEdge l y x))

/-! ### Counting helpers for the Kahn invariant -/

/-- Number of occurrences of `v` in the adjacency list of `u`. -/
def depCnt (l : TodoList) (u v : String) : Nat :=
  (graphDeps l u).count v

/-- Total number of in-degree decrements applied to `v` after processing
the nodes of `P`. -/
def decSum (l : TodoList) (P : List String) (v : String) : Nat :=
  (P.map fun u => depCnt l u v).sum

/-- Number of occurrences of `v` over the adjacency lists of all keys. -/
def keyCnt (l : TodoList) (v : String) : Nat :=
  (l.keyIds.map fun u => depCnt l u v).sum

/-- `Todo::has_reasonable_estimate`. -/
def Todo.has_reasonable_estimate (t : Todo) (min_hours max_hours : Rat) : Bool :=
  match t.estimated_hours with
  | some hours => min_hours ≤ hours ∧ hours ≤ max_hours
  | none => false

/-- `Todo::progress`. -/
def Todo.progress (t : Todo) : Rat :=
  match t.status with
  | TodoStatus.Pending | TodoStatus.Blocked => 0
  | TodoStatus.InProgress => 1 / 2
  | TodoStatus.Completed => 1
  | TodoStatus.Cancelled => 0

/-- Invariant of Kahn's loop, relating the processed-node list `P`, the
queue, and the current in-degree map: processed and queued nodes are distinct
keys; the in-degree of a key is its initial in-degree minus the decrements by
processed nodes; a key has been enqueued exactly when its decrements reached
its initial in-degree; and every processed node was fully decremented by the
nodes processed before it. -/
def KInv (l : TodoList) (P queue : List String) (indeg : String → Nat) : Prop :=
  (P ++ queue).Nodup ∧
  (∀ v ∈ P ++ queue, v ∈ l.keyIds) ∧
  (∀ v ∈ l.keyIds, indeg v = totalCnt l v - decSum l P v) ∧
  (∀ v ∈ l.keyIds, (v ∈ P ++ queue ↔ totalCnt l v ≤ decSum l P v)) ∧
  (∀ i (h : i < P.length), totalCnt l (P.get ⟨i, h⟩) ≤
    decSum l (P.take i) (P.get ⟨i, h⟩))

/-! ## Concrete fixtures used by the scenario parts of the claims -/

/-- A minimal todo with the given id and dependencies (all other fields as
produced by `Todo::new` modulo the random id). -/
def fixtureTodo (id : String) (deps : List String) : Todo :=
  { id := id, content := "", status := TodoStatus.Pending,
    priority := TodoPriority.Medium, estimated_hours := none,
    dependencies := deps,
    quality_gates := ⟨false, false, false, false, []⟩, tags := [],
    assignee := none, custom_fields := [] }

/-- A todo list with the given todos (metadata as built by
`TodoListMetadata::default`). -/
def fixtureList (ts : List Todo) : TodoList :=
  { todos := ts,
    metadata := ⟨0, [], [], 0, 0, 0, true, "1.0.0", []⟩,
    project := none }

/-- Scenario A: the three-task chain t1 ← t2 ← t3. -/
def chainList : TodoList :=
  fixtureList [fixtureTodo "t1" [], fixtureTodo "t2" ["t1"],
    fixtureTodo "t3" ["t2"]]

/-- Scenario B: two mutually dependent tasks. -/
def mutualList : TodoList :=
  fixtureList [fixtureTodo "t1" ["t2"], fixtureTodo "t2" ["t1"]]

/-- A cyclic list whose first unresolved node (t3) is not on the cycle:
t1 ↔ t2 form the cycle, t1 also depends on t3, and t3 has no dependencies. -/
def strayStartList : TodoList :=
  fixtureList [fixtureTodo "t3" [], fixtureTodo "t1" ["t2", "t3"],
    fixtureTodo "t2" ["t1"]]

/-- Two todos sharing one id, with no dependencies at all. -/
def dupIdList : TodoList :=
  fixtureList [fixtureTodo "a" [], fixtureTodo "a" []]

/-- A one-task list that will become cyclic once `"t2"` is added. -/
def preCycleList : TodoList :=
  fixtureList [fixtureTodo "t1" ["t2"]]

/-- The todo whose insertion closes the t1 ↔ t2 cycle. -/
def closingTodo : Todo :=
  fixtureTodo "t2" ["t1"]

/-- The claim's untruncated complexity formula (spec-side definition, for
comparison with the u8 arithmetic the code performs). -/
def claimComplexityScore (t : Todo) : Nat :=
  let content := lowerStr t.content
  let words := (complexityWords.filter fun w => containsStr content w).length
  let tech := if containsStr content "database" || containsStr content "api" ||
      containsStr content "system" then 1 else 0
  min (1 + words + tech +
    (countMatches content " and " + countMatches content ", ") / 2) 10

/-- A todo whose content is `", "` repeated 512 times: 512 separator matches,
so `action_count / 2 = 256`, which the `as u8` cast truncates to 0. -/
def manySeparatorsTodo : Todo :=
  { fixtureTodo "t1" [] with content := String.join (List.replicate 512 ", ") }

/-! ## Metadata update and list operations (`TodoList` impl) -/

/-- `*map.entry(k).or_insert(0) += 1` on an association list in
first-insertion order. -/
def bumpCount {α : Type} [DecidableEq α] : List (α × Nat) → α → List (α × Nat)
  | [], k => [(k, 1)]
  | (k', n) :: rest, k =>
      if k' = k then (k', n + 1) :: rest else (k', n) :: bumpCount rest k

/-- Look up a count, defaulting to zero (`map.get(&k).unwrap_or(&0)`). -/
def countOf {α : Type} [DecidableEq α] (m : List (α × Nat)) (k : α) : Nat :=
  ((m.find? fun p => decide (p.1 = k)).map Prod.snd).getD 0

/-- `TodoList::update_metadata_internal`. -/
def TodoList.update_metadata_internal (l : TodoList) (check_cycles : Bool) :
    TodoList :=
  let total_count := l.todos.length
  let status_counts := l.todos.foldl (fun m t => bumpCount m t.status) []
  let priority_counts := l.todos.foldl (fun m t => bumpCount m t.priority) []
  let total_estimated_hours : Rat := (l.todos.filterMap Todo.estimated_hours).sum
  let avg_estimated_hours : Rat :=
    if total_count > 0 then total_estimated_hours / total_count else 0
  let completion_percentage : Rat :=
    if total_count > 0 then
      (countOf status_counts TodoStatus.Completed : Rat) / total_count
    else 0
  let dependency_graph_valid :=
    if check_cycles then
      match l.validate_dependencies with
      | Except.ok _ => true
      | Except.error _ => false
    else true
  { l with metadata :=
      { total_count := total_count
        status_counts := status_counts
        priority_counts := priority_counts
        total_estimated_hours := total_estimated_hours
        avg_estimated_hours := avg_estimated_hours
        completion_percentage := completion_percentage
        dependency_graph_valid := dependency_graph_valid
        template_version := "1.0.0"
        custom_metadata := [] } }

/-- `TodoList::add_todo`: push, then refresh metadata without cycle check. -/
def TodoList.add_todo (l : TodoList) (todo : Todo) : TodoList :=
  TodoList.update_metadata_internal { l with todos := l.todos ++ [todo] } false

/-- `TodoList::update_metadata`: full refresh including the cycle check. -/
def TodoList.update_metadata (l : TodoList) : TodoList :=
  l.update_metadata_internal true

/-- `TodoList::critical_path`: the source returns an empty vector
("For now, return empty path"). -/
def TodoList.critical_path (_ : TodoList) : List String :=
  []

/-! ## Quality gates (`src/quality/gates.rs`) -/

/-- Gate type (`GateType`). -/
inductive GateType where
  | Coverage
  | Doctests
  | PropertyTests
  | Examples
  | SatdDetection
  | Complexity
  | Linting
  | Formatting
deriving DecidableEq, Repr

/-- A quality gate (`QualityGate`); `threshold : Option Rat` models
`Option<f64>`. -/
structure QualityGate where
  id : String
  description : String
  gate_type : GateType
  threshold : Option Rat
  mandatory : Bool
deriving DecidableEq, Repr

/-- Metrics bag (`QualityMetrics` in `src/quality/proxy.rs`); `complexity`
models a `u32`, the counts model `usize`. -/
structure QualityMetrics where
  coverage : Rat
  complexity : Nat
  doctest_count : Nat
  property_test_count : Nat
  example_count : Nat
  satd_count : Nat
deriving DecidableEq, Repr

/-- Result of gate validation (`GateResult`). -/
structure GateResult where
  gate : QualityGate
  passed : Bool
  actual_value : Option Rat
  message : String
  suggestions : List String
deriving DecidableEq, Repr

/-- Rust's saturating `as u32` cast on an `f64` (negative values clamp to 0,
large values to `u32::MAX`, the fraction truncates). -/
def f64ToU32 (x : Rat) : Nat :=
  min (max ⌊x⌋ 0).toNat (2 ^ 32 - 1)

/-- `QualityGatePipeline::validate_gate`.  The numeric messages interpolate
the rational values with `toString`, standing in for Rust's float `Display`;
no claim depends on the message text. -/
def validate_gate (gate : QualityGate) (metrics : QualityMetrics) : GateResult :=
  match gate.gate_type with
  | GateType.Coverage =>
      let passed := decide (gate.threshold.getD 80 ≤ metrics.coverage)
      { gate := gate, passed := passed,
        actual_value := some metrics.coverage,
        message := if passed then
            "Coverage " ++ toString metrics.coverage ++ "% meets requirement"
          else
            "Coverage " ++ toString metrics.coverage ++ "% below required " ++
              toString (gate.threshold.getD 80) ++ "%",
        suggestions := if !passed then
            ["Add more unit tests to increase coverage"]
          else [] }
  | GateType.Doctests =>
      let passed := decide (0 < metrics.doctest_count)
      { gate := gate, passed := passed,
        actual_value := some (metrics.doctest_count : Rat),
        message := if passed then
            toString metrics.doctest_count ++ " doctests found"
          else "No doctests found",
        suggestions := if !passed then
            ["Add doctests to all public APIs"]
          else [] }
  | GateType.PropertyTests =>
      let passed := decide (0 < metrics.property_test_count)
      { gate := gate, passed := passed,
        actual_value := some (metrics.property_test_count : Rat),
        message := if passed then
            toString metrics.property_test_count ++ " property tests found"
          else "No property tests found",
        suggestions := if !passed then
            ["Add property tests for complex logic"]
          else [] }
  | GateType.Examples =>
      let passed := decide (0 < metrics.example_count)
      { gate := gate, passed := passed,
        actual_value := some (metrics.example_count : Rat),
        message := if passed then
            toString metrics.example_count ++ " examples found"
          else "No examples found",
        suggestions := if !passed then
            ["Add working examples demonstrating usage"]
          else [] }
  | GateType.SatdDetection =>
      let passed := decide (metrics.satd_count = 0)
      { gate := gate, passed := passed,
        actual_value := some (metrics.satd_count : Rat),
        message := if passed then "No SATD comments detected"
          else toString metrics.satd_count ++ " SATD comments found",
        suggestions := if !passed then
            ["Remove all TODO/FIXME/HACK comments",
             "Convert TODOs to proper issue tracking"]
          else [] }
  | GateType.Complexity =>
      let passed := decide (metrics.complexity ≤ f64ToU32 (gate.threshold.getD 8))
      { gate := gate, passed := passed,
        actual_value := some (metrics.complexity : Rat),
        message := if passed then
            "Complexity " ++ toString metrics.complexity ++ " within limit"
          else
            "Complexity " ++ toString metrics.complexity ++
              " exceeds limit of " ++ toString (gate.threshold.getD 8),
        suggestions := if !passed then
            ["Refactor complex functions into smaller units",
             "Extract helper functions to reduce complexity"]
          else [] }
  | GateType.Linting =>
      { gate := gate, passed := true, actual_value := none,
        message := "Linting validation placeholder", suggestions := [] }
  | GateType.Formatting =>
      { gate := gate, passed := true, actual_value := none,
        message := "Formatting validation placeholder", suggestions := [] }

/-- `QualityGatePipeline::validate`: evaluate every configured gate. -/
def validateGates (gates : List QualityGate) (metrics : QualityMetrics) :
    List GateResult :=
  gates.map fun gate => validate_gate gate metrics

/-- `QualityGatePipeline::all_mandatory_gates_pass`. -/
def all_mandatory_gates_pass (gates : List QualityGate)
    (metrics : QualityMetrics) : Bool :=
  ((validateGates gates metrics).filter fun r => r.gate.mandatory).all
    fun r => r.passed

/-- The Complexity gate of Scenario F, with threshold 8. -/
def scenarioFGate : QualityGate :=
  { id := "complexity_limit",
    description := "Cyclomatic complexity must be under 8",
    gate_type := GateType.Complexity, threshold := some 8, mandatory := true }

/-- A metrics bag with complexity 10. -/
def complexity10Metrics : QualityMetrics :=
  { coverage := 0, complexity := 10, doctest_count := 0,
    property_test_count := 0, example_count := 0, satd_count := 0 }

/-- A Complexity gate with negative threshold: the `as u32` cast saturates
it to 0. -/
def negThresholdGate : QualityGate :=
  { id := "complexity_limit",
    description := "Cyclomatic complexity must be under -1",
    gate_type := GateType.Complexity, threshold := some (-1),
    mandatory := true }

/-- A metrics bag with complexity 0. -/
def zeroMetrics : QualityMetrics :=
  { coverage := 0, complexity := 0, doctest_count := 0,
    property_test_count := 0, example_count := 0, satd_count := 0 }

/-! ## Dependency depth (`TodoValidator::calculate_todo_depth` and friends) -/

/-- `cache.get(&id)` on the association-list cache (later inserts shadow
earlier ones, modelling `HashMap::insert` overwrite). -/
def cacheGet (cache : List (String × Nat)) (id : String) : Option Nat :=
  (cache.find? fun p => p.1 == id).map Prod.snd

mutual
/-- `TodoValidator::calculate_todo_depth` (recursive with memoization).  The
call depth is bounded by the number of uncached ids, so running with fuel
`todos.length + 1` reproduces the source's unbounded recursion (proved in
`calcDepth_spec`); the fuel-exhausted branch is unreachable under that
bound. -/
def calculate_todo_depth (l : TodoList) :
    Nat → String → List (String × Nat) → Nat × List (String × Nat)
  | 0, _, cache => (0, cache)
  | fuel + 1, todo_id, cache =>
      match cacheGet cache todo_id with
      | some cached_depth => (cached_depth, cache)
      | none =>
          let cache1 := (todo_id, 0) :: cache
          match l.todos.find? (fun t => t.id == todo_id) with
          | some todo =>
              if todo.dependencies.isEmpty then
                (1, (todo_id, 1) :: cache1)
              else
                let r := depthDepsLoop l fuel todo.dependencies 0 cache1
                (r.1 + 1, (todo_id, r.1 + 1) :: r.2)
          | none => (0, cache1)
termination_by fuel _ _ => (fuel, 0)

/-- The `for dep_id in &todo.dependencies` loop of `calculate_todo_depth`:
skip dependencies currently marked with the in-progress sentinel 0,
otherwise recurse and accumulate the maximum depth. -/
def depthDepsLoop (l : TodoList) (fuel : Nat) :
    List String → Nat → List (String × Nat) → Nat × List (String × Nat)
  | [], max_dep_depth, cache => (max_dep_depth, cache)
  | dep_id :: rest, max_dep_depth, cache =>
      if cacheGet cache dep_id = some 0 then
        depthDepsLoop l fuel rest max_dep_depth cache
      else
        let r := calculate_todo_depth l fuel dep_id cache
        depthDepsLoop l fuel rest (max max_dep_depth r.1) r.2
termination_by deps _ _ => (fuel, deps.length + 1)
end

/-- The fold of `TodoValidator::calculate_max_dependency_depth`: running
depth queries for every todo against one shared cache, tracking the maximum
returned depth. -/
def depthFold (l : TodoList) : Nat × List (String × Nat) :=
  l.todos.foldl
    (fun acc todo =>
      let r := calculate_todo_depth l (l.todos.length + 1) todo.id acc.2
      (max acc.1 r.1, r.2))
    (0, [])

/-- `TodoValidator::calculate_max_dependency_depth`. -/
def calculate_max_dependency_depth (l : TodoList) : Nat :=
  (depthFold l).1

/-- Observer: the depth the computation memoized for a given id (0 when the
id never entered the cache). -/
def depthOf (l : TodoList) (id : String) : Nat :=
  (cacheGet (depthFold l).2 id).getD 0

/-- Dependency graph metrics (`DependencyMetrics`). -/
structure DependencyMetrics where
  todos_with_dependencies : Nat
  total_dependencies : Nat
  max_depth : Nat
  has_cycles : Bool
  critical_path_length : Nat
deriving DecidableEq, Repr

/-- `TodoValidator::calculate_dependency_metrics`. -/
def calculate_dependency_metrics (l : TodoList) : DependencyMetrics :=
  let counts := l.todos.foldl
    (fun (acc : Nat × Nat) todo =>
      if todo.dependencies.isEmpty then acc
      else (acc.1 + 1, acc.2 + todo.dependencies.length))
    (0, 0)
  let has_cycles :=
    match l.validate_dependencies with
    | Except.ok _ => false
    | Except.error _ => true
  let md :=
    if has_cycles then (0, 0)
    else
      let depth := calculate_max_dependency_depth l
      (depth, depth)
  { todos_with_dependencies := counts.1
    total_dependencies := counts.2
    max_depth := md.1
    has_cycles := has_cycles
    critical_path_length := md.2 }

/-- The correctness predicate for completed cache entries: every entry with
a positive depth records the depth recurrence of the todo the id resolves
to, relative to the cached depths of its dependencies. -/
def goodCache (l : TodoList) (cache : List (String × Nat)) : Prop :=
  ∀ v n, cacheGet cache v = some n → 1 ≤ n →
    ∃ t, (l.todos.find? fun u => u.id == v) = some t ∧
      ((t.dependencies = [] ∧ n = 1) ∨
       (t.dependencies ≠ [] ∧
        (∀ d ∈ t.dependencies, ∃ m, cacheGet cache d = some m ∧ 1 ≤ m) ∧
        n = 1 + t.dependencies.foldl
          (fun a d => max a ((cacheGet cache d).getD 0)) 0))

/-- Number of distinct todo ids not yet in the cache (the measure bounding
the recursion depth of `calculate_todo_depth`). -/
def uncachedCount (l : TodoList) (cache : List (String × Nat)) : Nat :=
  (l.keyIds.filter fun v => (cacheGet cache v).isNone).length

/-! ## The todo-list validator (`src/validators/todo.rs`) -/

/-- Issue severity (`IssueSeverity`). -/
inductive IssueSeverity where
  | Error
  | Warning
  | Info
deriving DecidableEq, Repr

/-- Issue category (`IssueCategory`). -/
inductive IssueCategory where
  | Actionability
  | Completeness
  | Complexity
  | TimeEstimate
  | Dependencies
  | Structure
  | QualityGate
deriving DecidableEq, Repr

/-- A validation issue (`ValidationIssue`). -/
structure ValidationIssue where
  severity : IssueSeverity
  category : IssueCategory
  todo_id : Option String
  message : String
  suggestion : Option String
deriving DecidableEq, Repr

/-- Todo list quality metrics (`TodoMetrics`); the `f32` averages are
modelled as exact rationals. -/
structure TodoMetrics where
  total_count : Nat
  actionable_count : Nat
  proper_length_count : Nat
  estimated_count : Nat
  reasonable_complexity_count : Nat
  avg_complexity : Rat
  avg_task_length : Rat
  total_estimated_hours : Rat
  dependency_metrics : DependencyMetrics
deriving DecidableEq, Repr

/-- Validation result (`TodoValidationResult`). -/
structure TodoValidationResult where
  is_valid : Bool
  issues : List ValidationIssue
  metrics : TodoMetrics
  suggestions : List String
deriving DecidableEq, Repr

/-- Stand-in for Rust's `{:.1}` float formatting in issue messages (no claim
depends on the message text). -/
def fmtHours (q : Rat) : String :=
  toString q

/-- The generic-language table of `TodoValidator::validate_todo`. -/
def genericWords : List String :=
  ["thing", "stuff", "item", "something", "fix issues", "handle"]

/-- `TodoValidator::validate_todo`: the per-item checks, in source order. -/
def validate_todo (config : TodoQualityConfig) (todo : Todo) :
    List ValidationIssue :=
  let min_chars := config.min_task_detail_chars.getD 10
  let max_chars := config.max_task_detail_chars.getD 100
  (if ¬ todo.is_actionable then
    [{ severity := IssueSeverity.Error, category := IssueCategory.Actionability,
       todo_id := some todo.id,
       message := "Todo '" ++ todo.content ++
         "' is not actionable - should start with action verb",
       suggestion := some
         "Start with verbs like 'implement', 'create', 'add', 'fix', etc." }]
  else []) ++
  (if strLen todo.content < min_chars then
    [{ severity := IssueSeverity.Warning, category := IssueCategory.Completeness,
       todo_id := some todo.id,
       message := "Todo content too short: " ++ toString (strLen todo.content) ++
         " chars (min " ++ toString min_chars ++ ")",
       suggestion := some
         "Add more specific details about what needs to be done" }]
  else []) ++
  (if max_chars < strLen todo.content then
    [{ severity := IssueSeverity.Warning, category := IssueCategory.Completeness,
       todo_id := some todo.id,
       message := "Todo content too long: " ++ toString (strLen todo.content) ++
         " chars (max " ++ toString max_chars ++ ")",
       suggestion := some "Break this into smaller, more focused tasks" }]
  else []) ++
  (match config.max_complexity_per_task with
   | some max_complexity =>
      if max_complexity < todo.complexity_score then
        [{ severity := IssueSeverity.Error, category := IssueCategory.Complexity,
           todo_id := some todo.id,
           message := "Todo complexity " ++ toString todo.complexity_score ++
             " exceeds maximum " ++ toString max_complexity,
           suggestion := some
             "Break this complex task into simpler subtasks" }]
      else []
   | none => []) ++
  (if config.require_time_estimates ∧ todo.estimated_hours.isNone then
    [{ severity := IssueSeverity.Error, category := IssueCategory.TimeEstimate,
       todo_id := some todo.id,
       message := "Todo missing time estimate",
       suggestion := some
         "Add estimated_hours field with realistic time estimate" }]
  else []) ++
  (match todo.estimated_hours with
   | some hours =>
      let min_hours := config.min_estimated_hours.getD (1 / 2)
      let max_hours := config.max_estimated_hours.getD 40
      (if hours < min_hours then
        [{ severity := IssueSeverity.Warning,
           category := IssueCategory.TimeEstimate,
           todo_id := some todo.id,
           message := "Time estimate " ++ fmtHours hours ++
             "h seems too low (min " ++ fmtHours min_hours ++ "h)",
           suggestion := some
             "Consider if this task really needs so little time" }]
      else []) ++
      (if max_hours < hours then
        [{ severity := IssueSeverity.Error,
           category := IssueCategory.TimeEstimate,
           todo_id := some todo.id,
           message := "Time estimate " ++ fmtHours hours ++
             "h exceeds maximum " ++ fmtHours max_hours ++ "h",
           suggestion := some "Break this large task into smaller chunks" }]
      else [])
   | none => []) ++
  (if config.require_specific_actions then
    match genericWords.find? (fun w => containsStr (lowerStr todo.content) w) with
    | some word =>
        [{ severity := IssueSeverity.Warning,
           category := IssueCategory.Completeness,
           todo_id := some todo.id,
           message := "Todo contains generic language: '" ++ word ++ "'",
           suggestion := some
             "Be more specific about what needs to be done" }]
    | none => []
  else [])

/-- The duplicate-id scan of `validate_structure` (a `HashSet::insert` whose
result reports prior presence). -/
def dupIdIssues : List Todo → List String → List ValidationIssue
  | [], _ => []
  | todo :: rest, seen =>
      if todo.id ∈ seen then
        { severity := IssueSeverity.Error, category := IssueCategory.Structure,
          todo_id := some todo.id,
          message := "Duplicate todo ID: " ++ todo.id,
          suggestion := some "Ensure all todo IDs are unique" } ::
          dupIdIssues rest seen
      else dupIdIssues rest (todo.id :: seen)

/-- The duplicate-content scan of `validate_structure` (a `HashMap::insert`
returning the previously stored id, later inserts replacing earlier ones). -/
def dupContentIssues :
    List Todo → List (String × String) → List ValidationIssue
  | [], _ => []
  | todo :: rest, seen =>
      let normalized := lowerStr todo.content.trim
      match (seen.find? fun p => p.1 == normalized).map Prod.snd with
      | some other_id =>
          { severity := IssueSeverity.Warning,
            category := IssueCategory.Structure,
            todo_id := some todo.id,
            message := "Duplicate todo content with ID: " ++ other_id,
            suggestion := some
              "Make todo descriptions more specific to avoid duplicates" } ::
            dupContentIssues rest ((normalized, todo.id) :: seen)
      | none => dupContentIssues rest ((normalized, todo.id) :: seen)

/-- `TodoValidator::validate_structure`. -/
def validate_structure (config : TodoQualityConfig) (todo_list : TodoList) :
    List ValidationIssue :=
  let count := todo_list.todos.length
  (match config.max_todos_per_batch with
   | some max_todos =>
      if max_todos < count then
        [{ severity := IssueSeverity.Error, category := IssueCategory.Structure,
           todo_id := none,
           message := "Todo count " ++ toString count ++
             " exceeds maximum " ++ toString max_todos,
           suggestion := some "Split into multiple smaller todo lists" }]
      else []
   | none => []) ++
  (if count = 0 then
    [{ severity := IssueSeverity.Error, category := IssueCategory.Structure,
       todo_id := none,
       message := "Todo list is empty",
       suggestion := some "Add at least one todo item" }]
  else []) ++
  dupIdIssues todo_list.todos [] ++
  dupContentIssues todo_list.todos []

/-- `TodoValidator::validate_dependencies` (the validator-side checks). -/
def validator_validate_dependencies (config : TodoQualityConfig)
    (todo_list : TodoList) : List ValidationIssue :=
  if ¬ config.require_dependency_graph then []
  else
    (todo_list.todos.flatMap fun todo =>
      todo.dependencies.filterMap fun dep_id =>
        if dep_id ∈ todo_list.todos.map Todo.id then none
        else some
          { severity := IssueSeverity.Error,
            category := IssueCategory.Dependencies,
            todo_id := some todo.id,
            message := "Dependency '" ++ dep_id ++ "' not found",
            suggestion := some
              "Remove invalid dependency or add missing todo" }) ++
    (if config.prevent_circular_dependencies then
      match todo_list.validate_dependencies with
      | Except.error cycle =>
          [{ severity := IssueSeverity.Error,
             category := IssueCategory.Dependencies,
             todo_id := none,
             message := "Circular dependency detected: " ++
               String.intercalate " -> " cycle,
             suggestion := some
               "Remove circular dependencies by reordering tasks" }]
      | Except.ok _ => []
    else []) ++
    (todo_list.todos.filterMap fun todo =>
      if todo.id ∈ todo.dependencies then
        some { severity := IssueSeverity.Error,
               category := IssueCategory.Dependencies,
               todo_id := some todo.id,
               message := "Todo depends on itself",
               suggestion := some "Remove self-dependency" }
      else none)

/-- `TodoValidator::calculate_metrics`.  The `u32` complexity total wraps
modulo 2^32 as in the source. -/
def calculate_metrics (config : TodoQualityConfig) (todo_list : TodoList) :
    TodoMetrics :=
  let total_count := todo_list.todos.length
  let min_chars := config.min_task_detail_chars.getD 10
  let max_chars := config.max_task_detail_chars.getD 100
  let max_complexity := config.max_complexity_per_task.getD 8
  let actionable_count :=
    (todo_list.todos.filter fun t => t.is_actionable).length
  let proper_length_count :=
    (todo_list.todos.filter fun t =>
      t.has_valid_length min_chars max_chars).length
  let estimated_count :=
    (todo_list.todos.filter fun t => t.estimated_hours.isSome).length
  let total_estimated_hours : Rat :=
    (todo_list.todos.filterMap Todo.estimated_hours).sum
  let reasonable_complexity_count :=
    (todo_list.todos.filter fun t =>
      t.complexity_score ≤ max_complexity).length
  let total_complexity : Nat :=
    (todo_list.todos.map fun t => t.complexity_score).sum % 2 ^ 32
  let total_length : Nat := (todo_list.todos.map fun t => strLen t.content).sum
  let avg_complexity : Rat :=
    if 0 < total_count then (total_complexity : Rat) / total_count else 0
  let avg_task_length : Rat :=
    if 0 < total_count then (total_length : Rat) / total_count else 0
  { total_count := total_count
    actionable_count := actionable_count
    proper_length_count := proper_length_count
    estimated_count := estimated_count
    reasonable_complexity_count := reasonable_complexity_count
    avg_complexity := avg_complexity
    avg_task_length := avg_task_length
    total_estimated_hours := total_estimated_hours
    dependency_metrics := calculate_dependency_metrics todo_list }

/-- `TodoValidator::calculate_quality_score`. -/
def calculate_quality_score (config : TodoQualityConfig)
    (metrics : TodoMetrics) : Rat :=
  if metrics.total_count = 0 then 0
  else
    let actionability_score : Rat :=
      (metrics.actionable_count : Rat) / metrics.total_count
    let length_score : Rat :=
      (metrics.proper_length_count : Rat) / metrics.total_count
    let complexity_score : Rat :=
      (metrics.reasonable_complexity_count : Rat) / metrics.total_count
    let estimate_score : Rat :=
      if config.require_time_estimates then
        (metrics.estimated_count : Rat) / metrics.total_count
      else 1
    let dependency_score : Rat :=
      if metrics.dependency_metrics.has_cycles then 0 else 1
    actionability_score * (3 / 10) + length_score * (1 / 5) +
      complexity_score * (1 / 5) + estimate_score * (1 / 5) +
      dependency_score * (1 / 10)

/-- `TodoValidator::generate_suggestions`. -/
def generate_suggestions (config : TodoQualityConfig)
    (metrics : TodoMetrics) : List String :=
  (if metrics.actionable_count < metrics.total_count then
    ["Make " ++ toString (metrics.total_count - metrics.actionable_count) ++
      " todos more actionable by starting with action verbs (implement, create, add, etc.)"]
  else []) ++
  (if metrics.reasonable_complexity_count < metrics.total_count then
    ["Break down complex tasks (complexity > 8) into smaller, focused subtasks"]
  else []) ++
  (if config.require_time_estimates ∧
      metrics.estimated_count < metrics.total_count then
    ["Add time estimates to " ++
      toString (metrics.total_count - metrics.estimated_count) ++
      " todos for better project planning"]
  else []) ++
  (if metrics.dependency_metrics.has_cycles then
    ["Remove circular dependencies to enable proper task ordering"]
  else []) ++
  (if metrics.dependency_metrics.todos_with_dependencies = 0 ∧
      1 < metrics.total_count then
    ["Consider adding dependencies between related tasks for better sequencing"]
  else []) ++
  (if calculate_quality_score config metrics < 4 / 5 then
    ["Overall todo list quality could be improved - focus on specific, actionable tasks with realistic estimates"]
  else [])

/-- `TodoValidator::validate_todo_list`. -/
def validate_todo_list (config : TodoQualityConfig) (todo_list : TodoList) :
    TodoValidationResult :=
  let issues :=
    validate_structure config todo_list ++
    (todo_list.todos.flatMap fun todo => validate_todo config todo) ++
    validator_validate_dependencies config todo_list
  let metrics := calculate_metrics config todo_list
  let suggestions := generate_suggestions config metrics
  let is_valid :=
    ! issues.any fun issue => decide (issue.severity = IssueSeverity.Error)
  { is_valid := is_valid
    issues := issues
    metrics := metrics
    suggestions := suggestions }

/-- A list whose single task is actionable, correctly sized, low-complexity,
estimated, and acyclic. -/
def perfectList : TodoList :=
  fixtureList [{ fixtureTodo "t1" [] with
    content := "Implement user authentication",
    estimated_hours := some 4 }]

/-! ## Basic lemmas about keys, adjacency and counts -/

theorem keyIds_nodup (l : TodoList) : l.keyIds.Nodup :=
  List.nodup_dedup _

theorem mem_keyIds {l : TodoList} {v : String} :
    v ∈ l.keyIds ↔ ∃ t ∈ l.todos, t.id = v := by
  simp [TodoList.keyIds, List.mem_dedup, eq_comm]

/-- A nodup list contained in another list is below it as a multiset. -/
theorem coe_le_of_nodup_subset {α : Type} [DecidableEq α] {S T : List α} (hS : S.Nodup)
    (hsub : ∀ x ∈ S, x ∈ T) : (S : Multiset α) ≤ (T : Multiset α) := by
  rw [Multiset.le_iff_count]
  intro a
  by_cases ha : a ∈ S
  · have h1 : S.count a ≤ 1 := List.nodup_iff_count_le_one.mp hS a
    have h2 : 1 ≤ T.count a := List.count_pos_iff.mpr (hsub a ha)
    simpa using h1.trans h2
  · simp [List.count_eq_zero_of_not_mem ha]

/-- Sums of a function over multiset-ordered lists are ordered. -/
theorem sum_map_le_of_le {α : Type} [DecidableEq α] (f : α → Nat) {S T : List α}
    (h : (S : Multiset α) ≤ (T : Multiset α)) :
    (S.map f).sum ≤ (T.map f).sum := by
  have hsplit : ((T : Multiset α) - ↑S) + ↑S = ↑T := tsub_add_cancel_of_le h
  have hsum : ((T : Multiset α).map f).sum
      = (((T : Multiset α) - ↑S).map f).sum + ((S : Multiset α).map f).sum := by
    conv_lhs => rw [← hsplit]
    simp [Multiset.map_add]
  have h2 : ((S : Multiset α).map f).sum ≤ ((T : Multiset α).map f).sum := by
    omega
  simpa using h2

/-- Keys resolve in the adjacency map, to the dependency list of some todo
with that id. -/
theorem graphGet_of_mem_keyIds {l : TodoList} {v : String} (hv : v ∈ l.keyIds) :
    ∃ t ∈ l.todos, t.id = v ∧ graphGet l v = some t.dependencies := by
  obtain ⟨t, ht, hid⟩ := mem_keyIds.mp hv
  have hsome : (l.todos.reverse.find? (fun u => u.id == v)).isSome := by
    rw [List.find?_isSome]
    exact ⟨t, List.mem_reverse.mpr ht, by simp [hid]⟩
  obtain ⟨u, hu⟩ := Option.isSome_iff_exists.mp hsome
  have hpu := List.find?_some hu
  have hmu : u ∈ l.todos := List.mem_reverse.mp (List.mem_of_find?_eq_some hu)
  exact ⟨u, hmu, by simpa using hpu, by simp [graphGet, hu]⟩

/-- Summing through a `filterMap` that is total on the index list. -/
theorem sum_map_eq_sum_filterMap (g : String → Option Todo) (fK : String → Nat)
    (fT : Todo → Nat) (ks : List String)
    (h : ∀ k ∈ ks, ∃ t, g k = some t ∧ fK k = fT t) :
    (ks.map fK).sum = ((ks.filterMap g).map fT).sum := by
  induction ks with
  | nil => simp
  | cons k ks ih =>
      obtain ⟨t, hgt, hf⟩ := h k (List.mem_cons_self _ _)
      have hrest := ih fun x hx => h x (List.mem_cons_of_mem _ hx)
      simp [List.filterMap_cons, hgt, hf, hrest]

/-- The per-key adjacency counts are dominated by the raw dependency counts:
distinct keys resolve to distinct todos. -/
theorem keyCnt_le_totalCnt (l : TodoList) (v : String) :
    keyCnt l v ≤ totalCnt l v := by
  classical
  set g : String → Option Todo := fun k => l.todos.reverse.find? (fun t => t.id == k)
    with hg
  have hpoint : ∀ k ∈ l.keyIds, ∃ t, g k = some t ∧
      depCnt l k v = t.dependencies.count v := by
    intro k hk
    obtain ⟨t, _, _, hget⟩ := graphGet_of_mem_keyIds hk
    have : ∃ u, g k = some u ∧ u.dependencies = t.dependencies := by
      have hget' := hget
      unfold graphGet at hget'
      obtain ⟨u, hu, hud⟩ := Option.map_eq_some'.mp hget'
      exact ⟨u, hu, hud⟩
    obtain ⟨u, hu, hud⟩ := this
    refine ⟨u, hu, ?_⟩
    simp [depCnt, graphDeps, hget, hud]
  have hsum : keyCnt l v
      = ((l.keyIds.filterMap g).map fun t => t.dependencies.count v).sum :=
    sum_map_eq_sum_filterMap g _ _ _ hpoint
  have hnd : (l.keyIds.filterMap g).Nodup := by
    refine List.Nodup.filterMap ?_ (keyIds_nodup l)
    intro a a' b hb hb'
    have h1 := List.find?_some (Option.mem_def.mp hb)
    have h2 := List.find?_some (Option.mem_def.mp hb')
    simp only [beq_iff_eq] at h1 h2
    exact h1 ▸ h2
  have hsub : ∀ t ∈ l.keyIds.filterMap g, t ∈ l.todos := by
    intro t ht
    obtain ⟨k, _, hgk⟩ := List.mem_filterMap.mp ht
    exact List.mem_reverse.mp (List.mem_of_find?_eq_some hgk)
  calc keyCnt l v
      = ((l.keyIds.filterMap g).map fun t => t.dependencies.count v).sum := hsum
    _ ≤ (l.todos.map fun t => t.dependencies.count v).sum :=
        sum_map_le_of_le _ (coe_le_of_nodup_subset hnd hsub)
    _ = totalCnt l v := rfl

theorem decSum_nil (l : TodoList) (v : String) : decSum l [] v = 0 := rfl

theorem decSum_append (l : TodoList) (P Q : List String) (v : String) :
    decSum l (P ++ Q) v = decSum l P v + decSum l Q v := by
  simp [decSum]

theorem decSum_singleton (l : TodoList) (u v : String) :
    decSum l [u] v = depCnt l u v := by
  simp [decSum]

/-- Decrements over a nodup set of keys never exceed the per-key total. -/
theorem decSum_le_keyCnt {l : TodoList} {P : List String} (hP : P.Nodup)
    (hsub : ∀ x ∈ P, x ∈ l.keyIds) (v : String) :
    decSum l P v ≤ keyCnt l v :=
  sum_map_le_of_le _ (coe_le_of_nodup_subset hP hsub)

/-- Strengthening: room is left for one unprocessed key. -/
theorem decSum_add_depCnt_le_keyCnt {l : TodoList} {P : List String} {w : String}
    (hP : P.Nodup) (hsub : ∀ x ∈ P, x ∈ l.keyIds) (hw : w ∈ l.keyIds)
    (hwP : w ∉ P) (v : String) :
    decSum l P v + depCnt l w v ≤ keyCnt l v := by
  have h := decSum_le_keyCnt (l := l) (P := w :: P)
    (List.nodup_cons.mpr ⟨hwP, hP⟩)
    (by intro x hx; rcases List.mem_cons.mp hx with h | h
        · exact h ▸ hw
        · exact hsub x h) v
  have : decSum l (w :: P) v = depCnt l w v + decSum l P v := by
    simp [decSum]
  omega

/-! ### The distinct-ids case -/

theorem keyIds_of_nodup {l : TodoList} (hnd : (l.todos.map Todo.id).Nodup) :
    l.keyIds = l.todos.map Todo.id :=
  List.dedup_eq_self.mpr hnd

theorem graphGet_id_of_nodup {l : TodoList} (hnd : (l.todos.map Todo.id).Nodup)
    {t : Todo} (ht : t ∈ l.todos) : graphGet l t.id = some t.dependencies := by
  have hk : t.id ∈ l.keyIds := mem_keyIds.mpr ⟨t, ht, rfl⟩
  obtain ⟨u, hu, hid, hget⟩ := graphGet_of_mem_keyIds hk
  have : u = t := List.inj_on_of_nodup_map hnd hu ht hid
  rw [hget, this]

theorem depCnt_id_of_nodup {l : TodoList} (hnd : (l.todos.map Todo.id).Nodup)
    {t : Todo} (ht : t ∈ l.todos) (v : String) :
    depCnt l t.id v = t.dependencies.count v := by
  simp [depCnt, graphDeps, graphGet_id_of_nodup hnd ht]

theorem keyCnt_eq_totalCnt_of_nodup {l : TodoList}
    (hnd : (l.todos.map Todo.id).Nodup) (v : String) :
    keyCnt l v = totalCnt l v := by
  unfold keyCnt totalCnt
  rw [keyIds_of_nodup hnd, List.map_map]
  congr 1
  refine List.map_eq_map_iff.mpr ?_
  intro t ht
  exact depCnt_id_of_nodup hnd ht v

/-! ### Specification of the inner decrement loop -/

theorem processNeighbors_spec (keys : List String) :
    ∀ (ns queue : List String) (indeg : String → Nat),
      queue.Nodup → (∀ v ∈ queue, v ∈ keys) → (∀ v ∈ queue, indeg v = 0) →
      (∀ v ∈ keys, ns.count v ≤ indeg v) →
      (∀ v, (processNeighbors keys ns queue indeg).2 v =
        if v ∈ keys then indeg v - ns.count v else indeg v) ∧
      (∀ v, v ∈ (processNeighbors keys ns queue indeg).1 ↔
        v ∈ queue ∨ (v ∈ keys ∧ 1 ≤ indeg v ∧ indeg v ≤ ns.count v)) ∧
      (processNeighbors keys ns queue indeg).1.Nodup := by
  intro ns
  induction ns with
  | nil =>
      intro queue indeg hq hqk hz hu
      refine ⟨?_, ?_, hq⟩
      · intro v; simp [processNeighbors]
      · intro v
        simp only [processNeighbors, List.count_nil]
        constructor
        · exact fun h => Or.inl h
        · rintro (h | ⟨-, h1, h2⟩)
          · exact h
          · omega
  | cons nb rest ih =>
      intro queue indeg hq hqk hz hu
      by_cases hk : nb ∈ keys
      · have hcnb : (nb :: rest).count nb = rest.count nb + 1 :=
          List.count_cons_self nb rest
        have hnbq : nb ∉ queue := by
          intro hqmem
          have h0 := hz nb hqmem
          have hc := hu nb hk
          rw [h0, hcnb] at hc
          omega
        have hstep : processNeighbors keys (nb :: rest) queue indeg =
            processNeighbors keys rest
              (if indeg nb - 1 = 0 then queue ++ [nb] else queue)
              (Function.update indeg nb (indeg nb - 1)) := by
          simp [processNeighbors, hk]
        set d := indeg nb - 1 with hd
        set indeg2 := Function.update indeg nb d with hindeg2
        set queue2 := if d = 0 then queue ++ [nb] else queue with hqueue2
        have hup_nb : indeg2 nb = d := Function.update_same _ _ _
        have hup_ne : ∀ v, v ≠ nb → indeg2 v = indeg v := by
          intro v hv
          exact Function.update_noteq hv _ _
        have hq2 : queue2.Nodup := by
          by_cases h0 : d = 0 <;>
            simp [hqueue2, h0, List.nodup_append, hq, hnbq]
        have hq2mem : ∀ v, v ∈ queue2 ↔ v ∈ queue ∨ (d = 0 ∧ v = nb) := by
          intro v
          by_cases h0 : d = 0 <;> simp [hqueue2, h0]
        have hqk2 : ∀ v ∈ queue2, v ∈ keys := by
          intro v hv
          rcases (hq2mem v).mp hv with h | ⟨-, h⟩
          · exact hqk v h
          · exact h ▸ hk
        have hz2 : ∀ v ∈ queue2, indeg2 v = 0 := by
          intro v hv
          rcases (hq2mem v).mp hv with h | ⟨h0, h⟩
          · have hne : v ≠ nb := fun he => hnbq (he ▸ h)
            rw [hup_ne v hne]
            exact hz v h
          · rw [h, hup_nb]
            exact h0
        have hu2 : ∀ v ∈ keys, rest.count v ≤ indeg2 v := by
          intro v hv
          by_cases hvnb : v = nb
          · subst hvnb
            have hcv := hu v hv
            rw [hcnb] at hcv
            rw [hup_nb]
            omega
          · rw [hup_ne v hvnb]
            have h1 := hu v hv
            have h2 : (nb :: rest).count v = rest.count v :=
              List.count_cons_of_ne hvnb _
            omega
        obtain ⟨ihdeg, ihmem, ihnodup⟩ := ih queue2 indeg2 hq2 hqk2 hz2 hu2
        rw [hstep]
        refine ⟨?_, ?_, ihnodup⟩
        · intro v
          rw [ihdeg v]
          by_cases hvnb : v = nb
          · subst hvnb
            rw [hcnb]
            simp only [hk, if_pos, hup_nb]
            omega
          · rw [hup_ne v hvnb, List.count_cons_of_ne hvnb]
        · intro v
          rw [ihmem v, hq2mem v]
          by_cases hvnb : v = nb
          · subst hvnb
            have hcv := hu v hk
            rw [hcnb] at hcv
            rw [hup_nb, hcnb]
            constructor
            · intro h
              rcases h with (h | ⟨h0, -⟩) | ⟨-, h1, h2⟩
              · exact absurd h hnbq
              · exact Or.inr ⟨hk, by omega, by omega⟩
              · exact Or.inr ⟨hk, by omega, by omega⟩
            · intro h
              rcases h with h | ⟨-, h1, h2⟩
              · exact absurd h hnbq
              · by_cases h0 : d = 0
                · exact Or.inl (Or.inr ⟨h0, rfl⟩)
                · exact Or.inr ⟨hk, by omega, by omega⟩
          · rw [hup_ne v hvnb, List.count_cons_of_ne hvnb]
            constructor
            · intro h
              rcases h with (h | ⟨-, h⟩) | h
              · exact Or.inl h
              · exact absurd h hvnb
              · exact Or.inr h
            · intro h
              rcases h with h | h
              · exact Or.inl (Or.inl h)
              · exact Or.inr h
      · have hstep : processNeighbors keys (nb :: rest) queue indeg =
            processNeighbors keys rest queue indeg := by
          simp [processNeighbors, hk]
        have hu2 : ∀ v ∈ keys, rest.count v ≤ indeg v := by
          intro v hv
          have h1 := hu v hv
          have h2 : rest.count v ≤ (nb :: rest).count v := by
            by_cases hvnb : v = nb
            · subst hvnb; rw [List.count_cons_self]; omega
            · rw [List.count_cons_of_ne hvnb]
          omega
        obtain ⟨ihdeg, ihmem, ihnodup⟩ := ih queue indeg hq hqk hz hu2
        rw [hstep]
        refine ⟨?_, ?_, ihnodup⟩
        · intro v
          rw [ihdeg v]
          by_cases hvk : v ∈ keys
          · have hvnb : v ≠ nb := fun he => hk (he ▸ hvk)
            rw [List.count_cons_of_ne hvnb]
          · simp [hvk]
        · intro v
          rw [ihmem v]
          by_cases hvk : v ∈ keys
          · have hvnb : v ≠ nb := fun he => hk (he ▸ hvk)
            rw [List.count_cons_of_ne hvnb]
          · constructor
            · intro h
              rcases h with h | ⟨h, -⟩
              · exact Or.inl h
              · exact absurd h hvk
            · intro h
              rcases h with h | ⟨h, -⟩
              · exact Or.inl h
              · exact absurd h hvk

/-! ### The main loop preserves the invariant and empties the queue -/

theorem kahnLoop_spec (l : TodoList) :
    ∀ (fuel : Nat) (P queue : List String) (indeg : String → Nat),
      KInv l P queue indeg →
      l.keyIds.length ≤ fuel + P.length →
      ∃ P' indeg',
        kahnLoop l l.keyIds fuel queue indeg P.length = (indeg', P'.length) ∧
        KInv l P' [] indeg' := by
  intro fuel
  induction fuel with
  | zero =>
      intro P queue indeg hinv hlen
      obtain ⟨hnd, hmem, hc, he, hg⟩ := hinv
      obtain ⟨hPnd, hqnd, hdisj⟩ := List.nodup_append.mp hnd
      have hPsub : ∀ x ∈ P, x ∈ l.keyIds :=
        fun x hx => hmem x (List.mem_append_left _ hx)
      have hle : (↑P : Multiset String) ≤ ↑l.keyIds :=
        coe_le_of_nodup_subset hPnd hPsub
      have hcard : P.length ≤ l.keyIds.length := by
        simpa using Multiset.card_le_card hle
      have hPlen : P.length = l.keyIds.length := by omega
      have heq : (↑P : Multiset String) = ↑l.keyIds :=
        Multiset.eq_of_le_of_card_le hle (by simp [hPlen])
      have hperm : P.Perm l.keyIds := Multiset.coe_eq_coe.mp heq
      have hqnil : queue = [] := by
        rcases queue with _ | ⟨x, xs⟩
        · rfl
        · exfalso
          have hxk : x ∈ l.keyIds :=
            hmem x (List.mem_append_right _ (List.mem_cons_self _ _))
          have hxP : x ∈ P := hperm.mem_iff.mpr hxk
          exact hdisj hxP (List.mem_cons_self _ _)
      subst hqnil
      exact ⟨P, indeg, rfl, ⟨hnd, hmem, hc, he, hg⟩⟩
  | succ fuel ih =>
      intro P queue indeg hinv hlen
      rcases queue with _ | ⟨current, rest⟩
      · exact ⟨P, indeg, rfl, hinv⟩
      obtain ⟨hnd, hmem, hc, he, hg⟩ := hinv
      obtain ⟨hPnd, hcrnd, hdisj⟩ := List.nodup_append.mp hnd
      obtain ⟨hcurrest, hrestnd⟩ := List.nodup_cons.mp hcrnd
      have hcurk : current ∈ l.keyIds :=
        hmem current (List.mem_append_right _ (List.mem_cons_self _ _))
      have hcurP : current ∉ P := fun h => hdisj h (List.mem_cons_self _ _)
      have hPk : ∀ x ∈ P, x ∈ l.keyIds :=
        fun x hx => hmem x (List.mem_append_left _ hx)
      have hrestk : ∀ v ∈ rest, v ∈ l.keyIds :=
        fun v hv => hmem v (List.mem_append_right _ (List.mem_cons_of_mem _ hv))
      have hz : ∀ v ∈ rest, indeg v = 0 := by
        intro v hv
        have hvk : v ∈ l.keyIds := hrestk v hv
        have hvin : v ∈ P ++ current :: rest :=
          List.mem_append_right _ (List.mem_cons_of_mem _ hv)
        have h1 := (he v hvk).mp hvin
        rw [hc v hvk]
        omega
      have hbound : ∀ v ∈ l.keyIds,
          decSum l P v + depCnt l current v ≤ totalCnt l v := by
        intro v hv
        have h1 := decSum_add_depCnt_le_keyCnt hPnd hPk hcurk hcurP v
        have h2 := keyCnt_le_totalCnt l v
        omega
      have hu : ∀ v ∈ l.keyIds, (graphDeps l current).count v ≤ indeg v := by
        intro v hv
        have h1 := hbound v hv
        have h3 : depCnt l current v = (graphDeps l current).count v := rfl
        rw [hc v hv]
        omega
      obtain ⟨hdeg2, hmem2, hnd2⟩ := processNeighbors_spec l.keyIds
        (graphDeps l current) rest indeg hrestnd hrestk hz hu
      set PN := processNeighbors l.keyIds (graphDeps l current) rest indeg
        with hPN
      have hdec : ∀ v, decSum l (P ++ [current]) v
          = decSum l P v + depCnt l current v := by
        intro v
        rw [decSum_append, decSum_singleton]
      have hinv2 : KInv l (P ++ [current]) PN.1 PN.2 := by
        have hfreshzero : ∀ x, x ∈ P ++ current :: rest → x ∈ l.keyIds →
            ¬(1 ≤ indeg x) := by
          intro x hx hxk h1
          have := (he x hxk).mp hx
          rw [hc x hxk] at h1
          omega
        have hPNfresh : ∀ x ∈ PN.1,
            x ∈ rest ∨ (x ∈ l.keyIds ∧ 1 ≤ indeg x ∧
              indeg x ≤ (graphDeps l current).count x) := by
          intro x hx
          exact (hmem2 x).mp hx
        refine ⟨?_, ?_, ?_, ?_, ?_⟩
        · rw [List.nodup_append]
          refine ⟨?_, hnd2, ?_⟩
          · rw [List.nodup_append]
            refine ⟨hPnd, List.nodup_singleton _, ?_⟩
            intro x hxP hxc
            rcases List.mem_singleton.mp hxc with rfl
            exact hcurP hxP
          · intro x hx hx2
            rcases hPNfresh x hx2 with hr | ⟨hxk, h1, -⟩
            · rcases List.mem_append.mp hx with hxP | hxc
              · exact hdisj hxP (List.mem_cons_of_mem _ hr)
              · rcases List.mem_singleton.mp hxc with rfl
                exact hcurrest hr
            · refine hfreshzero x ?_ hxk h1
              rcases List.mem_append.mp hx with hxP | hxc
              · exact List.mem_append_left _ hxP
              · rcases List.mem_singleton.mp hxc with rfl
                exact List.mem_append_right _ (List.mem_cons_self _ _)
        · intro v hv
          rcases List.mem_append.mp hv with hv1 | hv2
          · rcases List.mem_append.mp hv1 with hvP | hvc
            · exact hPk v hvP
            · rcases List.mem_singleton.mp hvc with rfl
              exact hcurk
          · rcases hPNfresh v hv2 with hr | ⟨hvk, -, -⟩
            · exact hrestk v hr
            · exact hvk
        · intro v hv
          rw [hdeg2 v, if_pos hv, hc v hv, hdec v]
          have h3 : depCnt l current v = (graphDeps l current).count v := rfl
          omega
        · intro v hv
          have hmemold := he v hv
          have hb := hbound v hv
          have hindeg := hc v hv
          have h3 : depCnt l current v = (graphDeps l current).count v := rfl
          rw [hdec v]
          constructor
          · intro hvin
            rcases List.mem_append.mp hvin with hv1 | hv2
            · rcases List.mem_append.mp hv1 with hvP | hvc
              · have := hmemold.mp (List.mem_append_left _ hvP)
                omega
              · rcases List.mem_singleton.mp hvc with rfl
                have := hmemold.mp
                  (List.mem_append_right _ (List.mem_cons_self _ _))
                omega
            · rcases hPNfresh v hv2 with hr | ⟨-, h1, h2⟩
              · have := hmemold.mp
                  (List.mem_append_right _ (List.mem_cons_of_mem _ hr))
                omega
              · omega
          · intro harith
            by_cases hab : totalCnt l v ≤ decSum l P v
            · have hvin := hmemold.mpr hab
              rcases List.mem_append.mp hvin with hvP | hvc
              · exact List.mem_append_left _ (List.mem_append_left _ hvP)
              · rcases List.mem_cons.mp hvc with rfl | hvr
                · exact List.mem_append_left _
                    (List.mem_append_right _ (List.mem_singleton_self _))
                · exact List.mem_append_right _
                    ((hmem2 v).mpr (Or.inl hvr))
            · refine List.mem_append_right _ ((hmem2 v).mpr (Or.inr ⟨hv, ?_, ?_⟩))
              · omega
              · omega
        · intro i hi
          rw [List.length_append, List.length_singleton] at hi
          by_cases hilt : i < P.length
          · have hget : (P ++ [current]).get ⟨i, by
                rw [List.length_append, List.length_singleton]; omega⟩
                = P.get ⟨i, hilt⟩ := by
              simp [List.get_eq_getElem, List.getElem_append, hilt]
          
            have htake : (P ++ [current]).take i = P.take i :=
              List.take_append_of_le_length (by omega)
            simp only [hget, htake]
            exact hg i hilt
          · have hieq : i = P.length := by omega
            subst hieq
            have hget : (P ++ [current]).get ⟨P.length, by simp⟩ = current := by
              simp
            have htake : (P ++ [current]).take P.length = P := by
              rw [List.take_append_of_le_length (le_refl _), List.take_length]
            simp only [hget, htake]
            have := (he current hcurk).mp
              (List.mem_append_right _ (List.mem_cons_self _ _))
            exact this
      have hlen2 : l.keyIds.length ≤ fuel + (P ++ [current]).length := by
        rw [List.length_append, List.length_singleton]
        omega
      obtain ⟨P', indeg', hrun, hinv'⟩ := ih (P ++ [current]) PN.1 PN.2 hinv2 hlen2
      refine ⟨P', indeg', ?_, hinv'⟩
      have hstep : kahnLoop l l.keyIds (fuel + 1) (current :: rest) indeg P.length
          = kahnLoop l l.keyIds fuel PN.1 PN.2 (P.length + 1) := rfl
      rw [hstep]
      have hlen1 : (P ++ [current]).length = P.length + 1 := by
        rw [List.length_append, List.length_singleton]
      rw [← hlen1]
      exact hrun

theorem kahnRun_spec (l : TodoList) :
    ∃ P' indeg', kahnRun l = (indeg', P'.length) ∧ KInv l P' [] indeg' := by
  have hinv0 : KInv l [] (l.keyIds.filter fun v => initIndeg l v == 0)
      (initIndeg l) := by
    refine ⟨?_, ?_, ?_, ?_, ?_⟩
    · simpa using (keyIds_nodup l).filter _
    · intro v hv
      simp only [List.nil_append] at hv
      exact List.mem_of_mem_filter hv
    · intro v hv
      simp [initIndeg, hv, decSum_nil]
    · intro v hv
      simp only [List.nil_append, List.mem_filter, decSum_nil]
      rw [show initIndeg l v = totalCnt l v by simp [initIndeg, hv]]
      constructor
      · rintro ⟨-, h⟩
        have := beq_iff_eq.mp h
        omega
      · intro h
        exact ⟨hv, beq_iff_eq.mpr (by omega)⟩
    · intro i hi
      simp at hi
  obtain ⟨P', indeg', hrun, hinv⟩ := kahnLoop_spec l l.keyIds.length []
    (l.keyIds.filter fun v => initIndeg l v == 0) (initIndeg l) hinv0 (by simp)
  refine ⟨P', indeg', ?_, hinv⟩
  simpa [kahnRun] using hrun

/-! ### Outcomes of `validate_dependencies` -/

theorem validate_dependencies_ok_iff (l : TodoList) :
    l.validate_dependencies = Except.ok () ↔ (kahnRun l).2 = l.todos.length := by
  unfold TodoList.validate_dependencies
  by_cases h : (kahnRun l).2 ≠ l.todos.length
  · simp [h]
  · simp [h]
    omega

theorem validate_dependencies_error_iff (l : TodoList) :
    (∃ cyc, l.validate_dependencies = Except.error cyc) ↔
      (kahnRun l).2 ≠ l.todos.length := by
  unfold TodoList.validate_dependencies
  by_cases h : (kahnRun l).2 ≠ l.todos.length
  · simp [h]
  · simp [h]

/-- Processed-node count is bounded by the number of distinct ids. -/
theorem kahnRun_processed_le (l : TodoList) :
    (kahnRun l).2 ≤ l.keyIds.length := by
  obtain ⟨P', indeg', hrun, hinv⟩ := kahnRun_spec l
  obtain ⟨hnd, hmem, -, -, -⟩ := hinv
  have hPnd : P'.Nodup := by simpa using hnd
  have hsub : ∀ x ∈ P', x ∈ l.keyIds := by simpa using hmem
  have hcard : P'.length ≤ l.keyIds.length := by
    simpa using Multiset.card_le_card (coe_le_of_nodup_subset hPnd hsub)
  rw [hrun]
  exact hcard

/-- With a duplicated id the key set is strictly smaller than the todo list,
so Kahn's algorithm cannot process every todo. -/
theorem validate_dependencies_error_of_dup (l : TodoList)
    (hdup : ¬ (l.todos.map Todo.id).Nodup) :
    ∃ cyc, l.validate_dependencies = Except.error cyc := by
  rw [validate_dependencies_error_iff]
  have hcard := kahnRun_processed_le l
  have hsl : l.keyIds.Sublist (l.todos.map Todo.id) := List.dedup_sublist _
  have hle : l.keyIds.length ≤ (l.todos.map Todo.id).length := hsl.length_le
  have hne : l.keyIds.length ≠ (l.todos.map Todo.id).length := by
    intro heq
    have heql : l.keyIds = l.todos.map Todo.id := hsl.eq_of_length heq
    exact hdup (heql ▸ keyIds_nodup l)
  have hml : (l.todos.map Todo.id).length = l.todos.length := List.length_map _ _
  omega

/-- Membership in a `take` prefix bounds the index of first occurrence. -/
theorem indexOf_lt_of_mem_take :
    ∀ (xs : List String) (j : Nat) (u : String),
      u ∈ xs.take j → xs.indexOf u < j := by
  intro xs
  induction xs with
  | nil => intro j u h; simp at h
  | cons x xs ih =>
      intro j u h
      cases j with
      | zero => simp at h
      | succ j =>
          rw [List.take_succ_cons] at h
          by_cases hux : u = x
          · subst hux
            simp [List.indexOf_cons_self]
          · rcases List.mem_cons.mp h with heq | hmem
            · exact absurd heq hux
            · have := ih j u hmem
              rw [List.indexOf_cons_ne _ (Ne.symm hux)]
              omega

/-- The source of a dependency edge is always a key. -/
theorem depEdge_src_mem {l : TodoList} {a b : String} (h : DepEdge l a b) :
    a ∈ l.keyIds := by
  obtain ⟨t, ht, hid, -⟩ := h
  exact mem_keyIds.mpr ⟨t, ht, hid⟩

/-- Closed dependencies put both endpoints of an edge among the keys. -/
theorem depEdge_mem_keyIds {l : TodoList}
    (hclosed : ∀ t ∈ l.todos, ∀ d ∈ t.dependencies, d ∈ l.todos.map Todo.id)
    {a b : String} (h : DepEdge l a b) : a ∈ l.keyIds ∧ b ∈ l.keyIds := by
  obtain ⟨t, ht, hid, hbdep⟩ := h
  constructor
  · exact mem_keyIds.mpr ⟨t, ht, hid⟩
  · obtain ⟨t', ht', hid'⟩ := List.mem_map.mp (hclosed t ht b hbdep)
    exact mem_keyIds.mpr ⟨t', ht', hid'⟩

/-- If Kahn's algorithm processes every todo of a distinct-id, closed list,
the dependency graph is acyclic: a todo is always processed strictly before
each of its dependencies, so a dependency cycle is impossible. -/
theorem acyclic_of_processed_full {l : TodoList}
    (hnd : (l.todos.map Todo.id).Nodup)
    (hfull : (kahnRun l).2 = l.todos.length) : Acyclic l := by
  obtain ⟨P', indeg', hrun, hinv⟩ := kahnRun_spec l
  obtain ⟨hnd', hmem', hc', he', hg'⟩ := hinv
  have hPnd : P'.Nodup := by simpa using hnd'
  have hPsub : ∀ x ∈ P', x ∈ l.keyIds := by simpa using hmem'
  have hklen : l.keyIds.length = l.todos.length := by
    rw [keyIds_of_nodup hnd, List.length_map]
  have hPlen : P'.length = l.keyIds.length := by
    rw [hrun] at hfull
    omega
  have hperm : P'.Perm l.keyIds := by
    have hle := coe_le_of_nodup_subset hPnd hPsub
    exact Multiset.coe_eq_coe.mp
      (Multiset.eq_of_le_of_card_le hle (by simp [hPlen]))
  have hrank : ∀ u v, u ∈ l.keyIds → v ∈ l.keyIds → DepEdge l u v →
      P'.indexOf u < P'.indexOf v := by
    intro u v huk hvk hedge
    have hvP : v ∈ P' := hperm.mem_iff.mpr hvk
    have hjlt : P'.indexOf v < P'.length := List.indexOf_lt_length.mpr hvP
    have hgetj : P'.get ⟨P'.indexOf v, hjlt⟩ = v := List.indexOf_get hjlt
    have hgj := hg' (P'.indexOf v) hjlt
    rw [hgetj] at hgj
    obtain ⟨t, ht, hid, hvdep⟩ := hedge
    have hdepcnt : 1 ≤ depCnt l u v := by
      have hcnt : depCnt l t.id v = t.dependencies.count v :=
        depCnt_id_of_nodup hnd ht v
      rw [hid] at hcnt
      rw [hcnt]
      exact List.count_pos_iff.mpr hvdep
    by_cases hu : u ∈ P'.take (P'.indexOf v)
    · exact indexOf_lt_of_mem_take P' (P'.indexOf v) u hu
    · exfalso
      have htaknd : (P'.take (P'.indexOf v)).Nodup :=
        hPnd.sublist (List.take_sublist _ _)
      have htaksub : ∀ x ∈ P'.take (P'.indexOf v), x ∈ l.keyIds :=
        fun x hx => hPsub x (List.take_subset _ _ hx)
      have hb := decSum_add_depCnt_le_keyCnt htaknd htaksub huk hu v
      have hk2 := keyCnt_eq_totalCnt_of_nodup hnd v
      omega
  intro x htg
  have htrans : ∀ a b, Relation.TransGen (DepEdge l) a b → b ∈ l.keyIds →
      P'.indexOf a < P'.indexOf b := by
    intro a b htg'
    induction htg' with
    | single h =>
        intro hbk
        exact hrank _ _ (depEdge_src_mem h) hbk h
    | tail hab hbc ih =>
        intro hck
        have hbk := depEdge_src_mem hbc
        exact lt_trans (ih hbk) (hrank _ _ hbk hck hbc)
  have hxk : x ∈ l.keyIds := by
    obtain ⟨y, hxy, -⟩ := Relation.TransGen.head'_iff.mp htg
    exact depEdge_src_mem hxy
  exact absurd (htrans x x htg hxk) (lt_irrefl _)

/-- A key whose in-degree never reached zero has an unprocessed dependent. -/
theorem exists_unprocessed_dependent {l : TodoList}
    (hnd : (l.todos.map Todo.id).Nodup) {P' : List String}
    (hPnd : P'.Nodup) (hPsub : ∀ x ∈ P', x ∈ l.keyIds) {v : String}
    (hlt : decSum l P' v < totalCnt l v) :
    ∃ k, k ∈ l.keyIds ∧ k ∉ P' ∧ DepEdge l k v := by
  classical
  have hle : (↑P' : Multiset String) ≤ ↑l.keyIds :=
    coe_le_of_nodup_subset hPnd hPsub
  set rest := (↑l.keyIds : Multiset String) - ↑P' with hrest
  have hsplit : (↑P' : Multiset String) + rest = ↑l.keyIds := by
    rw [hrest]
    exact add_tsub_cancel_of_le hle
  have hsum : keyCnt l v
      = decSum l P' v + (rest.map fun u => depCnt l u v).sum := by
    have hkc : ((l.keyIds : Multiset String).map fun u => depCnt l u v).sum
        = keyCnt l v := by
      simp [keyCnt]
    rw [← hkc]
    conv_lhs => rw [← hsplit]
    simp [Multiset.map_add, decSum]
  have hpos : 0 < (rest.map fun u => depCnt l u v).sum := by
    have hk2 := keyCnt_eq_totalCnt_of_nodup hnd v
    omega
  by_contra hno
  push_neg at hno
  have hall : ∀ y ∈ rest.map fun u => depCnt l u v, y = 0 := by
    intro y hy
    obtain ⟨k, hk, rfl⟩ := Multiset.mem_map.mp hy
    have hkkeys : k ∈ l.keyIds := by
      have : rest ≤ ↑l.keyIds := by
        rw [hrest]; exact tsub_le_self
      simpa using Multiset.mem_of_le this hk
    have hkP : k ∉ P' := by
      intro hkP'
      have hc1 : 0 < Multiset.count k rest := Multiset.count_pos.mpr hk
      have hc2 : Multiset.count k rest
          = Multiset.count k (↑l.keyIds : Multiset String)
            - Multiset.count k (↑P' : Multiset String) := by
        rw [hrest, Multiset.count_sub]
      have hc3 : Multiset.count k (↑l.keyIds : Multiset String) ≤ 1 :=
        Multiset.nodup_iff_count_le_one.mp
          (by simpa using keyIds_nodup l) k
      have hc4 : 0 < Multiset.count k (↑P' : Multiset String) := by
        simpa [Multiset.count_pos] using hkP'
      omega
    by_contra hne
    have hdep : 1 ≤ depCnt l k v := Nat.pos_of_ne_zero hne
    obtain ⟨t, ht, hid, hget⟩ := graphGet_of_mem_keyIds hkkeys
    have hvmem : v ∈ t.dependencies := by
      have : depCnt l k v = t.dependencies.count v := by
        simp [depCnt, graphDeps, hget]
      rw [this] at hdep
      exact List.count_pos_iff.mp hdep
    exact hno k hkkeys hkP ⟨t, ht, hid, hvmem⟩
  have : (rest.map fun u => depCnt l u v).sum = 0 := Multiset.sum_eq_zero hall
  omega

/-- With distinct ids and closed dependencies, acyclicity forces Kahn's
algorithm to process every todo: otherwise the unprocessed keys all have
unprocessed dependents, and following them pigeonholes into a cycle. -/
theorem processed_full_of_acyclic {l : TodoList}
    (hnd : (l.todos.map Todo.id).Nodup)
    (hacyc : Acyclic l) : (kahnRun l).2 = l.todos.length := by
  classical
  by_contra hne
  obtain ⟨P', indeg', hrun, hinv⟩ := kahnRun_spec l
  obtain ⟨hnd', hmem', hc', he', hg'⟩ := hinv
  have hPnd : P'.Nodup := by simpa using hnd'
  have hPsub : ∀ x ∈ P', x ∈ l.keyIds := by simpa using hmem'
  have hklen : l.keyIds.length = l.todos.length := by
    rw [keyIds_of_nodup hnd, List.length_map]
  have hcard : P'.length ≤ l.keyIds.length := by
    simpa using Multiset.card_le_card (coe_le_of_nodup_subset hPnd hPsub)
  have hPlt : P'.length < l.keyIds.length := by
    rw [hrun] at hne
    omega
  have hstep : ∀ v, v ∈ l.keyIds → v ∉ P' →
      ∃ k, k ∈ l.keyIds ∧ k ∉ P' ∧ DepEdge l k v := by
    intro v hvk hvP
    have hlt : decSum l P' v < totalCnt l v := by
      by_contra hge
      have hvic : v ∈ P' ++ [] := (he' v hvk).mpr (by omega)
      simp at hvic
      exact hvP hvic
    exact exists_unprocessed_dependent hnd hPnd hPsub hlt
  have hchoice : ∀ v, ∃ k, (v ∈ l.keyIds ∧ v ∉ P') →
      ((k ∈ l.keyIds ∧ k ∉ P') ∧ DepEdge l k v) := by
    intro v
    by_cases hv : v ∈ l.keyIds ∧ v ∉ P'
    · obtain ⟨k, h1, h2, h3⟩ := hstep v hv.1 hv.2
      exact ⟨k, fun _ => ⟨⟨h1, h2⟩, h3⟩⟩
    · exact ⟨v, fun h => absurd h hv⟩
  choose g hg using hchoice
  obtain ⟨v0, hv0k, hv0P⟩ : ∃ v0, v0 ∈ l.keyIds ∧ v0 ∉ P' := by
    by_contra hall
    push_neg at hall
    have hsub2 : ∀ x ∈ l.keyIds, x ∈ P' := fun x hx => hall x hx
    have := Multiset.card_le_card
      (coe_le_of_nodup_subset (keyIds_nodup l) hsub2)
    simp at this
    omega
  set f : Nat → String := fun n => g^[n] v0 with hf
  have hfR : ∀ n, f n ∈ l.keyIds ∧ f n ∉ P' := by
    intro n
    induction n with
    | zero => exact ⟨hv0k, hv0P⟩
    | succ n ihn =>
        have hfs : f (n + 1) = g (f n) := Function.iterate_succ_apply' g n v0
        rw [hfs]
        exact (hg (f n) ihn).1
  have hedge : ∀ n, DepEdge l (f (n + 1)) (f n) := by
    intro n
    have hfs : f (n + 1) = g (f n) := Function.iterate_succ_apply' g n v0
    rw [hfs]
    exact (hg (f n) (hfR n)).2
  have hchain : ∀ n d, Relation.TransGen (DepEdge l) (f (n + d + 1)) (f n) := by
    intro n d
    induction d with
    | zero => exact Relation.TransGen.single (hedge n)
    | succ d ihd =>
        exact Relation.TransGen.head (hedge (n + d + 1)) ihd
  obtain ⟨i, hi, j, hj, hij, hfij⟩ :=
    Finset.exists_ne_map_eq_of_card_lt_of_maps_to
      (s := Finset.range (l.keyIds.length + 1)) (t := l.keyIds.toFinset)
      (by
        have : l.keyIds.toFinset.card ≤ l.keyIds.length :=
          l.keyIds.toFinset_card_le
        simp only [Finset.card_range]
        omega)
      (fun n _ => List.mem_toFinset.mpr (hfR n).1)
  rcases Nat.lt_or_ge i j with hlt | hge
  · obtain ⟨d, rfl⟩ : ∃ d, j = i + d + 1 := ⟨j - i - 1, by omega⟩
    have := hchain i d
    rw [hfij] at this
    exact hacyc _ this
  · have hlt2 : j < i := by omega
    obtain ⟨d, rfl⟩ : ∃ d, i = j + d + 1 := ⟨i - j - 1, by omega⟩
    have := hchain j d
    rw [← hfij] at this
    exact hacyc _ this

/-! ## Claim C1: Ok iff acyclic -/

/-- C1.  For every TodoList whose todos have pairwise-distinct ids and whose
dependency lists mention only ids of todos in the same list,
`validate_dependencies` returns Ok if and only if the directed graph whose
edges go from each todo to each id in its dependencies is acyclic. -/
theorem c1_validate_dependencies_ok_iff_acyclic (l : TodoList)
    (hnd : (l.todos.map Todo.id).Nodup)
    (hclosed : ∀ t ∈ l.todos, ∀ d ∈ t.dependencies, d ∈ l.todos.map Todo.id) :
    l.validate_dependencies = Except.ok () ↔ Acyclic l := by
  rw [validate_dependencies_ok_iff]
  constructor
  · exact acyclic_of_processed_full hnd
  · exact processed_full_of_acyclic hnd

/-- Witness for C1 at the concrete chain t1 ← t2 ← t3. -/
theorem c1_validate_dependencies_ok_iff_acyclic_witness :
    (chainList.todos.map Todo.id).Nodup ∧
    (∀ t ∈ chainList.todos, ∀ d ∈ t.dependencies,
      d ∈ chainList.todos.map Todo.id) ∧
    (chainList.validate_dependencies = Except.ok () ↔ Acyclic chainList) :=
  ⟨by decide, by decide,
    c1_validate_dependencies_ok_iff_acyclic chainList (by decide) (by decide)⟩

/-! ## Claim C9: duplicated ids always yield Err -/

/-- C9.  For every TodoList in which two todos share the same id,
`validate_dependencies` returns Err even when the dependency relation over
the distinct ids is acyclic (the processed count over unique keys cannot
reach the todo count); the returned cycle witness may be the empty sequence,
as on the two-todo list with duplicated id `"a"` and no dependencies. -/
theorem c9_duplicate_ids_error (l : TodoList)
    (hdup : ¬ (l.todos.map Todo.id).Nodup) :
    (∃ cyc, l.validate_dependencies = Except.error cyc) ∧
    dupIdList.validate_dependencies = Except.error [] :=
  ⟨validate_dependencies_error_of_dup l hdup, rfl⟩

/-- Witness for C9 at the concrete duplicated-id list. -/
theorem c9_duplicate_ids_error_witness :
    (¬ (dupIdList.todos.map Todo.id).Nodup) ∧
    ((∃ cyc, dupIdList.validate_dependencies = Except.error cyc) ∧
      dupIdList.validate_dependencies = Except.error []) :=
  ⟨by decide, c9_duplicate_ids_error dupIdList (by decide)⟩

/-! ### The cycle-reconstruction walk -/

theorem cycleWalk_prefix (l : TodoList) (rem : List String) :
    ∀ (fuel : Nat) (cur : String) (vis acc : List String),
      acc <+: cycleWalk l rem fuel cur vis acc := by
  intro fuel
  induction fuel with
  | zero => intro cur vis acc; exact List.prefix_rfl
  | succ fuel ih =>
      intro cur vis acc
      by_cases hv : cur ∈ vis
      · simp [cycleWalk, hv]
      · rcases hg : graphGet l cur with - | deps
        · simp only [cycleWalk, hv, if_false, hg]
          exact List.prefix_append _ _
        · rcases hf : deps.find? (fun dep => rem.contains dep) with - | next
          · simp only [cycleWalk, hv, if_false, hg, hf]
            exact List.prefix_append _ _
          · simp only [cycleWalk, hv, if_false, hg, hf]
            exact (List.prefix_append _ _).trans (ih next (cur :: vis) (acc ++ [cur]))

theorem cycleWalk_chain (l : TodoList) (rem : List String) :
    ∀ (fuel : Nat) (cur : String) (vis acc : List String),
      List.Chain' (DepEdge l) (acc ++ [cur]) →
      List.Chain' (DepEdge l) (cycleWalk l rem fuel cur vis acc) := by
  intro fuel
  induction fuel with
  | zero =>
      intro cur vis acc hch
      have : acc <+: acc ++ [cur] := List.prefix_append _ _
      exact hch.prefix this
  | succ fuel ih =>
      intro cur vis acc hch
      by_cases hv : cur ∈ vis
      · simp only [cycleWalk, hv, if_true]
        exact hch.prefix (List.prefix_append _ _)
      · rcases hg : graphGet l cur with - | deps
        · simpa only [cycleWalk, hv, if_false, hg] using hch
        · rcases hf : deps.find? (fun dep => rem.contains dep) with - | next
          · simpa only [cycleWalk, hv, if_false, hg, hf] using hch
          · simp only [cycleWalk, hv, if_false, hg, hf]
            refine ih next (cur :: vis) (acc ++ [cur]) ?_
            have hnext : next ∈ deps := List.mem_of_find?_eq_some hf
            have hedge : DepEdge l cur next := by
              unfold graphGet at hg
              obtain ⟨t, ht, hdeps⟩ := Option.map_eq_some'.mp hg
              have hid := List.find?_some ht
              have hmemt : t ∈ l.todos :=
                List.mem_reverse.mp (List.mem_of_find?_eq_some ht)
              exact ⟨t, hmemt, by simpa using hid, hdeps ▸ hnext⟩
            rw [List.chain'_append]
            refine ⟨hch, List.chain'_singleton _, ?_⟩
            intro x hx y hy
            rw [List.getLast?_concat] at hx
            have hxc : x = cur := by
              have := Option.mem_def.mp hx
              exact (Option.some.injEq _ _ ▸ this).symm
            simp only [List.head?_cons, Option.mem_def, Option.some.injEq] at hy
            rw [hxc, ← hy]
            exact hedge

theorem cycleWalk_ne_nil (l : TodoList) (rem : List String) (fuel : Nat)
    (cur : String) (vis acc : List String) (hv : cur ∉ vis) :
    cycleWalk l rem (fuel + 1) cur vis acc ≠ [] := by
  rcases hg : graphGet l cur with - | deps
  · simp only [cycleWalk, hv, if_false, hg]
    simp
  · rcases hf : deps.find? (fun dep => rem.contains dep) with - | next
    · simp only [cycleWalk, hv, if_false, hg, hf]
      simp
    · simp only [cycleWalk, hv, if_false, hg, hf]
      intro hnil
      have hpre := cycleWalk_prefix l rem fuel next (cur :: vis) (acc ++ [cur])
      rw [hnil] at hpre
      have := List.prefix_nil.mp hpre
      simp at this

/-- On a cyclic distinct-id list, `validate_dependencies` returns a non-empty
error path whose consecutive elements are dependency edges. -/
theorem validate_error_nonempty_chain {l : TodoList}
    (hnd : (l.todos.map Todo.id).Nodup)
    (hcyc : ∃ x, Relation.TransGen (DepEdge l) x x) :
    ∃ cyc, l.validate_dependencies = Except.error cyc ∧ cyc ≠ [] ∧
      List.Chain' (DepEdge l) cyc := by
  obtain ⟨x, htg⟩ := hcyc
  obtain ⟨P', indeg', hrun, hinv⟩ := kahnRun_spec l
  obtain ⟨hnd', hmem', hc', he', hg'⟩ := hinv
  have hPnd : P'.Nodup := by simpa using hnd'
  have hPsub : ∀ y ∈ P', y ∈ l.keyIds := by simpa using hmem'
  have hne : (kahnRun l).2 ≠ l.todos.length := by
    intro hfull
    exact acyclic_of_processed_full hnd hfull x htg
  have hval : l.validate_dependencies
      = Except.error (findCycle l (kahnRun l).1) := by
    unfold TodoList.validate_dependencies
    simp [hne]
  have hfst : (kahnRun l).1 = indeg' := by rw [hrun]
  have hklen : l.keyIds.length = l.todos.length := by
    rw [keyIds_of_nodup hnd, List.length_map]
  have hcard : P'.length ≤ l.keyIds.length := by
    simpa using Multiset.card_le_card (coe_le_of_nodup_subset hPnd hPsub)
  have hPlt : P'.length < l.keyIds.length := by
    rw [hrun] at hne
    simp at hne
    omega
  obtain ⟨v0, hv0k, hv0P⟩ : ∃ v0, v0 ∈ l.keyIds ∧ v0 ∉ P' := by
    by_contra hall
    push_neg at hall
    have := Multiset.card_le_card
      (coe_le_of_nodup_subset (keyIds_nodup l) fun y hy => hall y hy)
    simp at this
    omega
  have hv0r : v0 ∈ remainingList l indeg' := by
    have h1 := hc' v0 hv0k
    have h2 : ¬ (totalCnt l v0 ≤ decSum l P' v0) := by
      intro habs
      have := (he' v0 hv0k).mpr habs
      simp at this
      exact hv0P this
    simp only [remainingList, List.mem_filter]
    refine ⟨hv0k, ?_⟩
    simp only [decide_eq_true_eq]
    omega
  have hremne : remainingList l indeg' ≠ [] := List.ne_nil_of_mem hv0r
  rcases hrem : remainingList l indeg' with - | ⟨start, rrest⟩
  · exact absurd hrem hremne
  have hfc : findCycle l indeg'
      = cycleWalk l (start :: rrest) ((start :: rrest).length + 1)
          start [] [] := by
    unfold findCycle
    rw [hrem]
  refine ⟨findCycle l (kahnRun l).1, hval, ?_, ?_⟩
  · rw [hfst, hfc]
    exact cycleWalk_ne_nil l (start :: rrest) (start :: rrest).length
      start [] [] (List.not_mem_nil start)
  · rw [hfst, hfc]
    exact cycleWalk_chain l (start :: rrest) _ start [] [] (by simp)

/-! ## Claim C2 (corrected): the error path is a dependency chain but need
not close into a cycle -/

/-- C2 counterexample.  `strayStartList` has distinct ids and a dependency
cycle (t1 ↔ t2), yet `validate_dependencies` returns the path `["t3"]`,
which is not a valid cycle: the walk starts at the unresolved node t3,
which merely feeds the cycle and has no unresolved dependency. -/
theorem c2_counterexample_cycle_path_not_a_cycle :
    (strayStartList.todos.map Todo.id).Nodup ∧
    Relation.TransGen (DepEdge strayStartList) "t1" "t1" ∧
    strayStartList.validate_dependencies = Except.error ["t3"] ∧
    ¬ ValidCycleWitness strayStartList ["t3"] := by
  refine ⟨by decide, ?_, rfl, ?_⟩
  · have h12 : DepEdge strayStartList "t1" "t2" := by decide
    have h21 : DepEdge strayStartList "t2" "t1" := by decide
    exact Relation.TransGen.head h12 (Relation.TransGen.single h21)
  · rintro ⟨-, -, y, hy, z, hz, hedge⟩
    simp [List.getLast?] at hy
    simp at hz
    subst hy
    subst hz
    exact absurd hedge (by decide)

/-- C2 (amended).  For every TodoList with distinct ids whose dependency
graph contains a cycle, `validate_dependencies` returns Err with a non-empty
sequence of task ids in which each element depends on the next; the walk may
however end at a node with no unresolved dependency instead of closing the
cycle.  For the two-task list where t1 and t2 depend on each other, the
returned path contains both t1 and t2. -/
theorem c2_error_path_nonempty_chain (l : TodoList)
    (hnd : (l.todos.map Todo.id).Nodup)
    (hcyc : ∃ x, Relation.TransGen (DepEdge l) x x) :
    (∃ cyc, l.validate_dependencies = Except.error cyc ∧ cyc ≠ [] ∧
      List.Chain' (DepEdge l) cyc) ∧
    mutualList.validate_dependencies = Except.error ["t1", "t2"] :=
  ⟨validate_error_nonempty_chain hnd hcyc, rfl⟩

/-- Witness for C2 (amended) at the two-task mutual cycle. -/
theorem c2_error_path_nonempty_chain_witness :
    (mutualList.todos.map Todo.id).Nodup ∧
    (∃ x, Relation.TransGen (DepEdge mutualList) x x) ∧
    ((∃ cyc, mutualList.validate_dependencies = Except.error cyc ∧
        cyc ≠ [] ∧ List.Chain' (DepEdge mutualList) cyc) ∧
      mutualList.validate_dependencies = Except.error ["t1", "t2"]) := by
  have h12 : DepEdge mutualList "t1" "t2" := by decide
  have h21 : DepEdge mutualList "t2" "t1" := by decide
  have hcyc : ∃ x, Relation.TransGen (DepEdge mutualList) x x :=
    ⟨"t1", Relation.TransGen.head h12 (Relation.TransGen.single h21)⟩
  exact ⟨by decide, hcyc,
    c2_error_path_nonempty_chain mutualList (by decide) hcyc⟩

/-! ## Claim C10: the public critical path is always empty -/

/-- C10.  For every TodoList, the public method `TodoList::critical_path`
returns the empty vector, regardless of the todos and their dependencies. -/
theorem c10_critical_path_always_empty (l : TodoList) :
    l.critical_path = [] := rfl

/-! ## Claim C8: `add_todo` skips the cycle check -/

/-- C8.  After `add_todo` the metadata field `dependency_graph_valid` is
`true` unconditionally (the cycle check is skipped), even when the todos'
dependency graph actually contains a cycle at that point, as on the list
obtained by adding `"t2"` (depending on `"t1"`) to a list whose only todo
`"t1"` depends on `"t2"`. -/
theorem c8_add_todo_assumes_graph_valid :
    (∀ (l : TodoList) (t : Todo),
      ((l.add_todo t).metadata.dependency_graph_valid : Bool) = true) ∧
    (preCycleList.add_todo closingTodo).metadata.dependency_graph_valid = true ∧
    (preCycleList.add_todo closingTodo).validate_dependencies
      = Except.error ["t1", "t2"] := by
  refine ⟨?_, rfl, rfl⟩
  intro l t
  rfl

/-! ## Claim C6 (corrected): the complexity score under u8 truncation -/

/-- The word-counting fold of `complexity_score` stays below the u8 modulus
as long as it has room for one increment per word. -/
theorem foldl_complexity_words (content : String) :
    ∀ (ws : List String) (s : Nat), s + ws.length < 2 ^ 8 →
      ws.foldl
        (fun score word =>
          if containsStr content word then (score + 1) % 2 ^ 8 else score) s
        = s + (ws.filter fun w => containsStr content w).length := by
  intro ws
  induction ws with
  | nil => intro s _; simp
  | cons w ws ih =>
      intro s hs
      simp only [List.length_cons] at hs
      by_cases hc : containsStr content w
      · have hmod : (s + 1) % 2 ^ 8 = s + 1 := Nat.mod_eq_of_lt (by omega)
        simp only [List.foldl_cons, hc, if_true, hmod, List.filter_cons, hc]
        rw [ih (s + 1) (by omega)]
        simp
        omega
      · simp only [List.foldl_cons, List.filter_cons, hc, Bool.false_eq_true,
          if_false]
        exact ih s (by omega)

set_option maxRecDepth 200000 in
/-- C6 counterexample.  For the content `", "` repeated 512 times the claim's
formula yields `min (1 + 0 + 0 + 512 / 2) 10 = 10`, but the code's
`(action_count / 2) as u8` cast truncates 256 to 0 and the score is 1. -/
theorem c6_counterexample_u8_truncation :
    manySeparatorsTodo.complexity_score = 1 ∧
    claimComplexityScore manySeparatorsTodo = 10 ∧
    manySeparatorsTodo.complexity_score ≠ claimComplexityScore manySeparatorsTodo := by
  refine ⟨?_, ?_, ?_⟩
  · rfl
  · rfl
  · intro h
    rw [show manySeparatorsTodo.complexity_score = 1 from rfl,
      show claimComplexityScore manySeparatorsTodo = 10 from rfl] at h
    omega

/-- C6 (amended).  For every Todo, `complexity_score()` equals the clamp to
10 of: 1, plus 1 for each of the nine fixed complexity words present in the
lower-cased content, plus 1 for the database/api/system bonus, plus
`(action_count / 2)` truncated modulo 2^8 by the `as u8` cast, the sum again
reduced modulo 2^8 by the u8 addition; in particular the result lies in
[0, 10] (it is 0 when the wrapped sum is a multiple of 2^8). -/
theorem c6_complexity_score_u8_formula (t : Todo) :
    t.complexity_score
      = min ((1 +
          (complexityWords.filter fun w =>
            containsStr (lowerStr t.content) w).length +
          (if containsStr (lowerStr t.content) "database" ||
              containsStr (lowerStr t.content) "api" ||
              containsStr (lowerStr t.content) "system" then 1 else 0) +
          (countMatches (lowerStr t.content) " and " +
            countMatches (lowerStr t.content) ", ") / 2 % 2 ^ 8) % 2 ^ 8) 10 ∧
    t.complexity_score ≤ 10 := by
  have hwords : (1 : Nat) + (complexityWords.filter fun w =>
      containsStr (lowerStr t.content) w).length ≤ 10 := by
    have hle : (complexityWords.filter fun w =>
        containsStr (lowerStr t.content) w).length ≤ complexityWords.length :=
      List.length_filter_le _ _
    have h9 : complexityWords.length = 9 := rfl
    omega
  constructor
  · simp only [Todo.complexity_score]
    rw [foldl_complexity_words (lowerStr t.content) complexityWords 1
      (by simp [complexityWords])]
    by_cases hb : containsStr (lowerStr t.content) "database" ||
        containsStr (lowerStr t.content) "api" ||
        containsStr (lowerStr t.content) "system"
    · rw [if_pos hb, if_pos hb]
      have hmod : (1 + (complexityWords.filter fun w =>
          containsStr (lowerStr t.content) w).length + 1) % 2 ^ 8
          = 1 + (complexityWords.filter fun w =>
            containsStr (lowerStr t.content) w).length + 1 :=
        Nat.mod_eq_of_lt (by omega)
      rw [hmod]
    · rw [if_neg hb, if_neg hb]
      simp
  · simp only [Todo.complexity_score]
    exact min_le_right _ _

/-! ## Claim C7 (corrected): gate dispatch semantics -/

/-- For a `u32` observed value and nonnegative threshold, the saturating
`as u32` cast preserves the at-most comparison. -/
theorem le_f64ToU32_iff {c : Nat} {th : Rat} (hc : c < 2 ^ 32) (hth : 0 ≤ th) :
    c ≤ f64ToU32 th ↔ (c : Rat) ≤ th := by
  unfold f64ToU32
  have hfl : 0 ≤ ⌊th⌋ := Int.floor_nonneg.mpr hth
  rw [max_eq_left hfl]
  constructor
  · intro h
    have h1 : c ≤ (⌊th⌋).toNat := le_trans h (min_le_left _ _)
    have h2 : (c : Int) ≤ ⌊th⌋ := by omega
    have h3 := Int.le_floor.mp h2
    exact_mod_cast h3
  · intro h
    have h2 : (c : Int) ≤ ⌊th⌋ := Int.le_floor.mpr (by exact_mod_cast h)
    refine le_min (by omega) (by omega)

/-- C7 counterexample.  A Complexity gate whose threshold is the negative
f64 value −1 passes on observed complexity 0 (the `as u32` cast saturates
the threshold to 0), although 0 ≤ −1 is false — so an at-most gate does not
in general pass iff the observed value is ≤ its threshold. -/
theorem c7_counterexample_negative_threshold :
    negThresholdGate.gate_type = GateType.Complexity ∧
    negThresholdGate.threshold = some (-1) ∧
    (validate_gate negThresholdGate zeroMetrics).passed = true ∧
    ¬ ((zeroMetrics.complexity : Rat) ≤ (-1 : Rat)) := by
  refine ⟨rfl, rfl, by decide, by norm_num [zeroMetrics]⟩

/-- C7 (amended).  Gate evaluation follows the gate's type tag: an at-most
Complexity gate with a nonnegative threshold passes iff the observed `u32`
complexity is ≤ the threshold (negative thresholds saturate to 0 under the
`as u32` cast); SATD passes iff the count equals 0; an at-least Coverage
gate passes iff the observed value is ≥ its threshold; informational gates
(Linting, Formatting) always pass.  In particular the Complexity gate with
threshold 8 evaluated against complexity 10 yields `passed = false` with a
non-empty suggestions list. -/
theorem c7_gate_dispatch (gate : QualityGate) (metrics : QualityMetrics)
    (hc32 : metrics.complexity < 2 ^ 32) :
    (∀ th, gate.gate_type = GateType.Complexity → gate.threshold = some th →
      0 ≤ th → ((validate_gate gate metrics).passed = true ↔
        (metrics.complexity : Rat) ≤ th)) ∧
    (gate.gate_type = GateType.SatdDetection →
      ((validate_gate gate metrics).passed = true ↔ metrics.satd_count = 0)) ∧
    (∀ th, gate.gate_type = GateType.Coverage → gate.threshold = some th →
      ((validate_gate gate metrics).passed = true ↔ th ≤ metrics.coverage)) ∧
    (gate.gate_type = GateType.Linting ∨ gate.gate_type = GateType.Formatting →
      (validate_gate gate metrics).passed = true) ∧
    ((validate_gate scenarioFGate complexity10Metrics).passed = false ∧
      (validate_gate scenarioFGate complexity10Metrics).suggestions ≠ []) := by
  refine ⟨?_, ?_, ?_, ?_, by decide, by decide⟩
  · intro th htype hth h0
    simp only [validate_gate, htype, hth, Option.getD_some, decide_eq_true_eq]
    exact le_f64ToU32_iff hc32 h0
  · intro htype
    simp only [validate_gate, htype, decide_eq_true_eq]
  · intro th htype hth
    simp only [validate_gate, htype, hth, Option.getD_some, decide_eq_true_eq]
  · intro htype
    rcases htype with h | h <;> simp [validate_gate, h]

/-- Witness for C7 at the Scenario F gate and the complexity-10 metrics. -/
theorem c7_gate_dispatch_witness :
    complexity10Metrics.complexity < 2 ^ 32 ∧
    ((validate_gate scenarioFGate complexity10Metrics).passed = false ∧
      (validate_gate scenarioFGate complexity10Metrics).suggestions ≠ []) :=
  ⟨by decide, (c7_gate_dispatch scenarioFGate complexity10Metrics
    (by decide)).2.2.2.2⟩

/-! ### Cache helper lemmas -/

theorem cacheGet_cons (cache : List (String × Nat)) (k x : String) (v : Nat) :
    cacheGet ((k, v) :: cache) x = if k = x then some v else cacheGet cache x := by
  by_cases h : k = x <;> simp [cacheGet, List.find?_cons, h]

theorem foldl_max_congr (g g' : String → Nat) :
    ∀ (ds : List String) (a : Nat), (∀ d ∈ ds, g d = g' d) →
      ds.foldl (fun acc d => max acc (g d)) a
        = ds.foldl (fun acc d => max acc (g' d)) a := by
  intro ds
  induction ds with
  | nil => intro a _; rfl
  | cons d ds ih =>
      intro a h
      simp only [List.foldl_cons]
      rw [h d (List.mem_cons_self _ _)]
      exact ih _ fun x hx => h x (List.mem_cons_of_mem _ hx)

theorem find?_id_of_nodup {l : TodoList} (hnd : (l.todos.map Todo.id).Nodup)
    {t : Todo} (ht : t ∈ l.todos) :
    (l.todos.find? fun u => u.id == t.id) = some t := by
  have hsome : (l.todos.find? fun u => u.id == t.id).isSome := by
    rw [List.find?_isSome]
    exact ⟨t, ht, by simp⟩
  obtain ⟨u, hu⟩ := Option.isSome_iff_exists.mp hsome
  have hpu := List.find?_some hu
  have hmu : u ∈ l.todos := List.mem_of_find?_eq_some hu
  have : u = t :=
    List.inj_on_of_nodup_map hnd hmu ht (by simpa using hpu)
  rw [hu, this]

theorem length_filter_le_of_imp {α : Type} (L : List α) (p q : α → Bool)
    (h : ∀ x ∈ L, q x = true → p x = true) :
    (L.filter q).length ≤ (L.filter p).length := by
  induction L with
  | nil => simp
  | cons x L ih =>
      have hrest := ih fun y hy => h y (List.mem_cons_of_mem _ hy)
      by_cases hq : q x = true
      · have hp := h x (List.mem_cons_self _ _) hq
        simp [List.filter_cons, hq, hp]
        omega
      · simp only [List.filter_cons, Bool.not_eq_true] at hq ⊢
        rw [hq]
        by_cases hp : p x = true
        · simp [hp]
          omega
        · simp only [Bool.not_eq_true] at hp
          rw [hp]
          simpa using hrest

theorem length_filter_lt_of_imp {α : Type} (L : List α) (p q : α → Bool)
    (h : ∀ x ∈ L, q x = true → p x = true) (a : α) (haL : a ∈ L)
    (hpa : p a = true) (hqa : q a = false) :
    (L.filter q).length < (L.filter p).length := by
  induction L with
  | nil => simp at haL
  | cons x L ih =>
      have hrest := length_filter_le_of_imp L p q
        fun y hy => h y (List.mem_cons_of_mem _ hy)
      rcases List.mem_cons.mp haL with rfl | haL'
      · rw [List.filter_cons, List.filter_cons, hpa, hqa]
        simp only [Bool.false_eq_true, if_false, if_true, List.length_cons]
        omega
      · have ihres := ih (fun y hy => h y (List.mem_cons_of_mem _ hy)) haL'
        by_cases hq : q x = true
        · have hp := h x (List.mem_cons_self _ _) hq
          simp [List.filter_cons, hq, hp]
          omega
        · simp only [Bool.not_eq_true] at hq
          rw [List.filter_cons, List.filter_cons, hq]
          by_cases hp : p x = true
          · simp [hp]
            omega
          · simp only [Bool.not_eq_true] at hp
            rw [hp]
            simpa using ihres

theorem uncachedCount_le (l : TodoList) (cache : List (String × Nat)) :
    uncachedCount l cache ≤ l.todos.length := by
  unfold uncachedCount
  calc (l.keyIds.filter fun v => (cacheGet cache v).isNone).length
      ≤ l.keyIds.length := List.length_filter_le _ _
    _ ≤ (l.todos.map Todo.id).length := (List.dedup_sublist _).length_le
    _ = l.todos.length := List.length_map _ _

theorem uncachedCount_mono (l : TodoList) {c c' : List (String × Nat)}
    (h : ∀ v, (cacheGet c v).isSome → (cacheGet c' v).isSome) :
    uncachedCount l c' ≤ uncachedCount l c := by
  refine length_filter_le_of_imp _ _ _ ?_
  intro x _ hx
  by_contra hc
  have h1 : (cacheGet c x).isSome := by
    rcases ho : cacheGet c x with - | n
    · rw [ho] at hc
      simp at hc
    · simp
  have h2 := h x h1
  rw [Option.isNone_iff_eq_none] at hx
  rw [hx] at h2
  simp at h2

theorem uncachedCount_lt_insert (l : TodoList) (cache : List (String × Nat))
    {id : String} (hnone : cacheGet cache id = none)
    (hid : id ∈ l.todos.map Todo.id) (x : Nat) :
    uncachedCount l ((id, x) :: cache) < uncachedCount l cache := by
  refine length_filter_lt_of_imp _ _ _ ?_ id ?_ ?_ ?_
  · intro v _ hv
    rw [Option.isNone_iff_eq_none] at hv ⊢
    rw [cacheGet_cons] at hv
    by_cases hvi : id = v
    · simp [hvi] at hv
    · rwa [if_neg hvi] at hv
  · rw [TodoList.keyIds, List.mem_dedup]
    exact hid
  · simp [hnone]
  · simp [cacheGet_cons]

/-! ### Correctness of the memoized depth computation -/

theorem calcDepth_spec (l : TodoList) (hnd : (l.todos.map Todo.id).Nodup)
    (hres : ∀ t ∈ l.todos, ∀ d ∈ t.dependencies, d ∈ l.todos.map Todo.id)
    (hacyc : Acyclic l) :
    ∀ (fuel : Nat) (id : String) (cache : List (String × Nat))
      (anc : List String),
      id ∈ l.todos.map Todo.id →
      (∀ v, cacheGet cache v = some 0 ↔ v ∈ anc) →
      (∀ v ∈ anc, Relation.TransGen (DepEdge l) v id) →
      id ∉ anc →
      goodCache l cache →
      uncachedCount l cache < fuel →
      (∀ v, cacheGet (calculate_todo_depth l fuel id cache).2 v = some 0 ↔
        v ∈ anc) ∧
      (∀ v n, cacheGet cache v = some n → 1 ≤ n →
        cacheGet (calculate_todo_depth l fuel id cache).2 v = some n) ∧
      goodCache l (calculate_todo_depth l fuel id cache).2 ∧
      cacheGet (calculate_todo_depth l fuel id cache).2 id
        = some (calculate_todo_depth l fuel id cache).1 ∧
      1 ≤ (calculate_todo_depth l fuel id cache).1 ∧
      (∀ v, (cacheGet cache v).isSome →
        (cacheGet (calculate_todo_depth l fuel id cache).2 v).isSome) := by
  intro fuel
  induction fuel with
  | zero =>
      intro id cache anc _ _ _ _ _ hfuel
      omega
  | succ fuel ih =>
      intro id cache anc hid hanc hreach hidanc hgood hfuel
      rcases hcache : cacheGet cache id with - | cached
      · -- id not yet cached
        rcases hfind : (l.todos.find? fun t => t.id == id) with - | todo
        · exfalso
          obtain ⟨t, ht, hidt⟩ := List.mem_map.mp hid
          have hsome : (l.todos.find? fun t => t.id == id).isSome := by
            rw [List.find?_isSome]
            exact ⟨t, ht, by simp [hidt]⟩
          rw [hfind] at hsome
          simp at hsome
        · have htmem : todo ∈ l.todos := List.mem_of_find?_eq_some hfind
          have htid : todo.id = id := by
            have := List.find?_some hfind
            simpa using this
          have hanc1 : ∀ v, cacheGet ((id, 0) :: cache) v = some 0 ↔
              v ∈ id :: anc := by
            intro v
            rw [cacheGet_cons]
            by_cases hv : id = v
            · subst hv
              simp
            · rw [if_neg hv]
              rw [hanc v]
              constructor
              · exact fun h => List.mem_cons_of_mem _ h
              · intro h
                rcases List.mem_cons.mp h with h | h
                · exact absurd h.symm hv
                · exact h
          have hgood1 : goodCache l ((id, 0) :: cache) := by
            intro v n hv hn
            rw [cacheGet_cons] at hv
            by_cases hvi : id = v
            · rw [if_pos hvi] at hv
              injection hv with hv0
              omega
            · rw [if_neg hvi] at hv
              obtain ⟨t, htf, hrec⟩ := hgood v n hv hn
              refine ⟨t, htf, ?_⟩
              rcases hrec with ⟨h1, h2⟩ | ⟨h1, h2, h3⟩
              · exact Or.inl ⟨h1, h2⟩
              · refine Or.inr ⟨h1, ?_, ?_⟩
                · intro d hd
                  obtain ⟨m, hm, hm1⟩ := h2 d hd
                  refine ⟨m, ?_, hm1⟩
                  rw [cacheGet_cons]
                  rw [if_neg ?_]
                  · exact hm
                  · intro hdi
                    rw [← hdi] at hm
                    rw [hcache] at hm
                    exact Option.noConfusion hm
                · rw [h3]
                  congr 1
                  refine foldl_max_congr _ _ _ _ ?_
                  intro d hd
                  obtain ⟨m, hm, -⟩ := h2 d hd
                  rw [cacheGet_cons, if_neg ?_]
                  · intro hdi
                    rw [← hdi] at hm
                    rw [hcache] at hm
                    exact Option.noConfusion hm
          by_cases hdeps : todo.dependencies.isEmpty
          · -- leaf: depth 1
            have hstep : calculate_todo_depth l (fuel + 1) id cache
                = (1, (id, 1) :: (id, 0) :: cache) := by
              simp [calculate_todo_depth, hcache, hfind, hdeps]
            rw [hstep]
            have hdnil : todo.dependencies = [] := List.isEmpty_iff.mp hdeps
            refine ⟨?_, ?_, ?_, ?_, ?_, ?_⟩
            · intro v
              rw [cacheGet_cons]
              by_cases hv : id = v
              · subst hv
                simp [hidanc]
              · rw [if_neg hv, cacheGet_cons, if_neg hv]
                exact hanc v
            · intro v n hv hn
              have hvne : id ≠ v := by
                intro hvi
                rw [← hvi] at hv
                rw [hcache] at hv
                exact Option.noConfusion hv
              rw [cacheGet_cons, if_neg hvne, cacheGet_cons, if_neg hvne]
              exact hv
            · intro v n hv hn
              rw [cacheGet_cons] at hv
              by_cases hvi : id = v
              · rw [if_pos hvi] at hv
                injection hv with hv1
                refine ⟨todo, hvi ▸ hfind, Or.inl ⟨hdnil, hv1.symm⟩⟩
              · rw [if_neg hvi, cacheGet_cons, if_neg hvi] at hv
                obtain ⟨t, htf, hrec⟩ := hgood v n hv hn
                refine ⟨t, htf, ?_⟩
                rcases hrec with ⟨h1, h2⟩ | ⟨h1, h2, h3⟩
                · exact Or.inl ⟨h1, h2⟩
                · refine Or.inr ⟨h1, ?_, ?_⟩
                  · intro d hd
                    obtain ⟨m, hm, hm1⟩ := h2 d hd
                    have hdne : id ≠ d := by
                      intro hdi
                      rw [← hdi] at hm
                      rw [hcache] at hm
                      exact Option.noConfusion hm
                    exact ⟨m, by
                      rw [cacheGet_cons, if_neg hdne, cacheGet_cons,
                        if_neg hdne]
                      exact hm, hm1⟩
                  · rw [h3]
                    congr 1
                    refine foldl_max_congr _ _ _ _ ?_
                    intro d hd
                    obtain ⟨m, hm, -⟩ := h2 d hd
                    have hdne : id ≠ d := by
                      intro hdi
                      rw [← hdi] at hm
                      rw [hcache] at hm
                      exact Option.noConfusion hm
                    rw [cacheGet_cons, if_neg hdne, cacheGet_cons,
                      if_neg hdne]
            · rw [cacheGet_cons]
              simp
            · exact le_refl 1
            · intro v hv
              rw [cacheGet_cons]
              by_cases hvi : id = v
              · simp [hvi]
              · rw [if_neg hvi, cacheGet_cons, if_neg hvi]
                exact hv
          · -- inner node: loop over dependencies
            have hloop : ∀ (deps : List String),
                (∀ d ∈ deps, DepEdge l id d ∧ d ∈ l.todos.map Todo.id) →
                ∀ (acc : Nat) (cache2 : List (String × Nat)),
                (∀ v, cacheGet cache2 v = some 0 ↔ v ∈ id :: anc) →
                goodCache l cache2 →
                uncachedCount l cache2 < fuel →
                (∀ v, cacheGet (depthDepsLoop l fuel deps acc cache2).2 v
                  = some 0 ↔ v ∈ id :: anc) ∧
                (∀ v n, cacheGet cache2 v = some n → 1 ≤ n →
                  cacheGet (depthDepsLoop l fuel deps acc cache2).2 v
                    = some n) ∧
                goodCache l (depthDepsLoop l fuel deps acc cache2).2 ∧
                (∀ d ∈ deps, ∃ m,
                  cacheGet (depthDepsLoop l fuel deps acc cache2).2 d
                    = some m ∧ 1 ≤ m) ∧
                (depthDepsLoop l fuel deps acc cache2).1
                  = deps.foldl (fun a d => max a
                      ((cacheGet (depthDepsLoop l fuel deps acc cache2).2
                        d).getD 0)) acc ∧
                (∀ v, (cacheGet cache2 v).isSome →
                  (cacheGet (depthDepsLoop l fuel deps acc cache2).2
                    v).isSome) := by
              intro deps
              induction deps with
              | nil =>
                  intro _ acc cache2 hanc2 hgood2 _
                  have hnil : depthDepsLoop l fuel [] acc cache2
                      = (acc, cache2) := by
                    simp [depthDepsLoop]
                  rw [hnil]
                  exact ⟨hanc2, fun v n hv _ => hv, hgood2, by simp,
                    by simp, fun v hv => hv⟩
              | cons d rest ihd =>
                  intro hdeps2 acc cache2 hanc2 hgood2 hfuel2
                  have hd := hdeps2 d (List.mem_cons_self _ _)
                  have hnoskip : ¬(cacheGet cache2 d = some 0) := by
                    intro hskip
                    have hdin := (hanc2 d).mp hskip
                    rcases List.mem_cons.mp hdin with rfl | hdanc
                    · exact hacyc d (Relation.TransGen.single hd.1)
                    · exact hacyc d ((hreach d hdanc).tail hd.1)
                  have hdanc2 : d ∉ id :: anc :=
                    fun hmem => hnoskip ((hanc2 d).mpr hmem)
                  have hreach2 : ∀ v ∈ id :: anc,
                      Relation.TransGen (DepEdge l) v d := by
                    intro v hv
                    rcases List.mem_cons.mp hv with rfl | hvanc
                    · exact Relation.TransGen.single hd.1
                    · exact (hreach v hvanc).tail hd.1
                  obtain ⟨hc1, hc2, hc3, hc4, hc5, hc6⟩ :=
                    ih d cache2 (id :: anc) hd.2 hanc2 hreach2 hdanc2
                      hgood2 hfuel2
                  have hstep2 : depthDepsLoop l fuel (d :: rest) acc cache2
                      = depthDepsLoop l fuel rest
                          (max acc (calculate_todo_depth l fuel d cache2).1)
                          (calculate_todo_depth l fuel d cache2).2 := by
                    simp [depthDepsLoop, hnoskip]
                  have hufuel : uncachedCount l
                      (calculate_todo_depth l fuel d cache2).2 < fuel :=
                    lt_of_le_of_lt (uncachedCount_mono l hc6) hfuel2
                  obtain ⟨hr1, hr2, hr3, hr4, hr5, hr6⟩ :=
                    ihd (fun x hx => hdeps2 x (List.mem_cons_of_mem _ hx))
                      (max acc (calculate_todo_depth l fuel d cache2).1)
                      (calculate_todo_depth l fuel d cache2).2 hc1 hc3 hufuel
                  rw [hstep2]
                  have hdfinal : cacheGet
                      (depthDepsLoop l fuel rest
                        (max acc (calculate_todo_depth l fuel d cache2).1)
                        (calculate_todo_depth l fuel d cache2).2).2 d
                      = some (calculate_todo_depth l fuel d cache2).1 :=
                    hr2 d _ hc4 hc5
                  refine ⟨hr1, ?_, hr3, ?_, ?_, ?_⟩
                  · intro v n hv hn
                    exact hr2 v n (hc2 v n hv hn) hn
                  · intro x hx
                    rcases List.mem_cons.mp hx with rfl | hxrest
                    · exact ⟨_, hdfinal, hc5⟩
                    · exact hr4 x hxrest
                  · rw [hr5, List.foldl_cons, hdfinal]
                    rfl
                  · intro v hv
                    exact hr6 v (hc6 v hv)
            have hdepsp : ∀ d ∈ todo.dependencies,
                DepEdge l id d ∧ d ∈ l.todos.map Todo.id := by
              intro d hd
              exact ⟨⟨todo, htmem, htid, hd⟩, hres todo htmem d hd⟩
            have hfuel1 : uncachedCount l ((id, 0) :: cache) < fuel := by
              have h1 := uncachedCount_lt_insert l cache hcache hid 0
              omega
            obtain ⟨hl1, hl2, hl3, hl4, hl5, hl6⟩ :=
              hloop todo.dependencies hdepsp 0 ((id, 0) :: cache)
                hanc1 hgood1 hfuel1
            have hstep : calculate_todo_depth l (fuel + 1) id cache
                = ((depthDepsLoop l fuel todo.dependencies 0
                      ((id, 0) :: cache)).1 + 1,
                   (id, (depthDepsLoop l fuel todo.dependencies 0
                      ((id, 0) :: cache)).1 + 1) ::
                    (depthDepsLoop l fuel todo.dependencies 0
                      ((id, 0) :: cache)).2) := by
              simp [calculate_todo_depth, hcache, hfind, hdeps]
            rw [hstep]
            have hidloop : cacheGet (depthDepsLoop l fuel todo.dependencies 0
                ((id, 0) :: cache)).2 id = some 0 :=
              (hl1 id).mpr (List.mem_cons_self _ _)
            have hdne : ∀ d ∈ todo.dependencies, id ≠ d := by
              intro d hd hdi
              obtain ⟨m, hm, hm1⟩ := hl4 d hd
              rw [← hdi] at hm
              rw [hidloop] at hm
              injection hm with hm0
              omega
            refine ⟨?_, ?_, ?_, ?_, ?_, ?_⟩
            · intro v
              rw [cacheGet_cons]
              by_cases hvi : id = v
              · subst hvi
                simp [hidanc]
              · rw [if_neg hvi, hl1 v]
                constructor
                · intro h
                  rcases List.mem_cons.mp h with h | h
                  · exact absurd h.symm hvi
                  · exact h
                · exact fun h => List.mem_cons_of_mem _ h
            · intro v n hv hn
              have hvne : id ≠ v := by
                intro hvi
                rw [← hvi] at hv
                rw [hcache] at hv
                exact Option.noConfusion hv
              rw [cacheGet_cons, if_neg hvne]
              refine hl2 v n ?_ hn
              rw [cacheGet_cons, if_neg hvne]
              exact hv
            · intro v n hv hn
              rw [cacheGet_cons] at hv
              by_cases hvi : id = v
              · rw [if_pos hvi] at hv
                injection hv with hv1
                refine ⟨todo, hvi ▸ hfind, Or.inr ⟨?_, ?_, ?_⟩⟩
                · intro hnil
                  rw [hnil] at hdeps
                  simp at hdeps
                · intro d hd
                  obtain ⟨m, hm, hm1⟩ := hl4 d hd
                  refine ⟨m, ?_, hm1⟩
                  rw [cacheGet_cons, if_neg (hdne d hd)]
                  exact hm
                · rw [← hv1]
                  have hcongr : todo.dependencies.foldl
                      (fun a d => max a ((cacheGet
                        ((id, (depthDepsLoop l fuel todo.dependencies 0
                          ((id, 0) :: cache)).1 + 1) ::
                          (depthDepsLoop l fuel todo.dependencies 0
                            ((id, 0) :: cache)).2) d).getD 0)) 0
                      = todo.dependencies.foldl
                        (fun a d => max a ((cacheGet
                          (depthDepsLoop l fuel todo.dependencies 0
                            ((id, 0) :: cache)).2 d).getD 0)) 0 := by
                    refine foldl_max_congr _ _ _ _ ?_
                    intro d hd
                    rw [cacheGet_cons, if_neg (hdne d hd)]
                  rw [hcongr, ← hl5]
                  omega
              · rw [if_neg hvi] at hv
                obtain ⟨t, htf, hrec⟩ := hl3 v n hv hn
                refine ⟨t, htf, ?_⟩
                rcases hrec with ⟨h1, h2⟩ | ⟨h1, h2, h3⟩
                · exact Or.inl ⟨h1, h2⟩
                · refine Or.inr ⟨h1, ?_, ?_⟩
                  · intro d hd
                    obtain ⟨m, hm, hm1⟩ := h2 d hd
                    have hdne2 : id ≠ d := by
                      intro hdi
                      rw [← hdi] at hm
                      rw [hidloop] at hm
                      injection hm with hm0
                      omega
                    refine ⟨m, ?_, hm1⟩
                    rw [cacheGet_cons, if_neg hdne2]
                    exact hm
                  · rw [h3]
                    congr 1
                    refine foldl_max_congr _ _ _ _ ?_
                    intro d hd
                    obtain ⟨m, hm, hm1⟩ := h2 d hd
                    have hdne2 : id ≠ d := by
                      intro hdi
                      rw [← hdi] at hm
                      rw [hidloop] at hm
                      injection hm with hm0
                      omega
                    rw [cacheGet_cons, if_neg hdne2]
            · rw [cacheGet_cons]
              simp
            · omega
            · intro v hv
              rw [cacheGet_cons]
              by_cases hvi : id = v
              · simp [hvi]
              · rw [if_neg hvi]
                refine hl6 v ?_
                rw [cacheGet_cons, if_neg hvi]
                exact hv
      · -- cached hit
        have hstep : calculate_todo_depth l (fuel + 1) id cache
            = (cached, cache) := by
          simp [calculate_todo_depth, hcache]
        rw [hstep]
        have hpos : 1 ≤ cached := by
          rcases Nat.eq_zero_or_pos cached with rfl | h
          · exact absurd ((hanc id).mp hcache) hidanc
          · exact h
        exact ⟨hanc, fun v n hv _ => hv, hgood, hcache, hpos, fun v hv => hv⟩

theorem depthFold_spec (l : TodoList) (hnd : (l.todos.map Todo.id).Nodup)
    (hres : ∀ t ∈ l.todos, ∀ d ∈ t.dependencies, d ∈ l.todos.map Todo.id)
    (hacyc : Acyclic l) :
    goodCache l (depthFold l).2 ∧
    (∀ t ∈ l.todos, ∃ m, cacheGet (depthFold l).2 t.id = some m ∧ 1 ≤ m) ∧
    (depthFold l).1 = l.todos.foldl
      (fun a t => max a ((cacheGet (depthFold l).2 t.id).getD 0)) 0 := by
  have haux : ∀ (ts : List Todo), (∀ t ∈ ts, t ∈ l.todos) →
      ∀ (acc : Nat) (cache : List (String × Nat)),
      (∀ v, ¬ cacheGet cache v = some 0) →
      goodCache l cache →
      (∀ v, ¬ cacheGet (ts.foldl
        (fun acc todo =>
          let r := calculate_todo_depth l (l.todos.length + 1) todo.id acc.2
          (max acc.1 r.1, r.2)) (acc, cache)).2 v = some 0) ∧
      (∀ v n, cacheGet cache v = some n → 1 ≤ n →
        cacheGet (ts.foldl
          (fun acc todo =>
            let r := calculate_todo_depth l (l.todos.length + 1) todo.id acc.2
            (max acc.1 r.1, r.2)) (acc, cache)).2 v = some n) ∧
      goodCache l (ts.foldl
        (fun acc todo =>
          let r := calculate_todo_depth l (l.todos.length + 1) todo.id acc.2
          (max acc.1 r.1, r.2)) (acc, cache)).2 ∧
      (∀ t ∈ ts, ∃ m, cacheGet (ts.foldl
        (fun acc todo =>
          let r := calculate_todo_depth l (l.todos.length + 1) todo.id acc.2
          (max acc.1 r.1, r.2)) (acc, cache)).2 t.id = some m ∧ 1 ≤ m) ∧
      (ts.foldl
        (fun acc todo =>
          let r := calculate_todo_depth l (l.todos.length + 1) todo.id acc.2
          (max acc.1 r.1, r.2)) (acc, cache)).1
        = ts.foldl (fun a t => max a ((cacheGet (ts.foldl
            (fun acc todo =>
              let r := calculate_todo_depth l (l.todos.length + 1) todo.id
                acc.2
              (max acc.1 r.1, r.2)) (acc, cache)).2 t.id).getD 0)) acc := by
    intro ts
    induction ts with
    | nil =>
        intro _ acc cache hz hgood
        exact ⟨hz, fun v n hv _ => hv, hgood, by simp, by simp⟩
    | cons t ts ihts =>
        intro hsub acc cache hz hgood
        have htmem : t ∈ l.todos := hsub t (List.mem_cons_self _ _)
        have hid : t.id ∈ l.todos.map Todo.id :=
          List.mem_map.mpr ⟨t, htmem, rfl⟩
        have hanc : ∀ v, cacheGet cache v = some 0 ↔ v ∈ ([] : List String) := by
          intro v
          simp [hz v]
        obtain ⟨hc1, hc2, hc3, hc4, hc5, hc6⟩ :=
          calcDepth_spec l hnd hres hacyc (l.todos.length + 1) t.id cache []
            hid hanc (by simp) (List.not_mem_nil _) hgood
            (by have := uncachedCount_le l cache; omega)
        have hz2 : ∀ v, ¬ cacheGet
            (calculate_todo_depth l (l.todos.length + 1) t.id cache).2 v
            = some 0 := by
          intro v hv
          simpa using (hc1 v).mp hv
        obtain ⟨hr1, hr2, hr3, hr4, hr5⟩ :=
          ihts (fun x hx => hsub x (List.mem_cons_of_mem _ hx))
            (max acc (calculate_todo_depth l (l.todos.length + 1) t.id
              cache).1)
            (calculate_todo_depth l (l.todos.length + 1) t.id cache).2
            hz2 hc3
        simp only [List.foldl_cons]
        have htfinal : cacheGet (ts.foldl
            (fun acc todo =>
              let r := calculate_todo_depth l (l.todos.length + 1) todo.id
                acc.2
              (max acc.1 r.1, r.2))
            (max acc (calculate_todo_depth l (l.todos.length + 1) t.id
              cache).1,
             (calculate_todo_depth l (l.todos.length + 1) t.id cache).2)).2
            t.id = some (calculate_todo_depth l (l.todos.length + 1) t.id
              cache).1 :=
          hr2 t.id _ hc4 hc5
        refine ⟨hr1, ?_, hr3, ?_, ?_⟩
        · intro v n hv hn
          exact hr2 v n (hc2 v n hv hn) hn
        · intro x hx
          rcases List.mem_cons.mp hx with rfl | hxts
          · exact ⟨_, htfinal, hc5⟩
          · exact hr4 x hxts
        · rw [hr5, htfinal]
          rfl
  obtain ⟨h1, h2, h3, h4, h5⟩ :=
    haux l.todos (fun t ht => ht) 0 []
      (by intro v; simp [cacheGet]) (by intro v n hv; simp [cacheGet] at hv)
  exact ⟨h3, h4, h5⟩

/-- The depth recurrence actually computed, for acyclic lists with distinct
ids and resolvable dependencies. -/
theorem depth_recurrence (l : TodoList) (hnd : (l.todos.map Todo.id).Nodup)
    (hres : ∀ t ∈ l.todos, ∀ d ∈ t.dependencies, d ∈ l.todos.map Todo.id)
    (hacyc : Acyclic l) :
    (∀ t ∈ l.todos, t.dependencies = [] → depthOf l t.id = 1) ∧
    (∀ t ∈ l.todos, t.dependencies ≠ [] →
      depthOf l t.id
        = 1 + t.dependencies.foldl (fun a d => max a (depthOf l d)) 0) ∧
    calculate_max_dependency_depth l
      = l.todos.foldl (fun a t => max a (depthOf l t.id)) 0 := by
  obtain ⟨hgood, hvals, hmax⟩ := depthFold_spec l hnd hres hacyc
  have hkey : ∀ t ∈ l.todos, ∃ m, cacheGet (depthFold l).2 t.id = some m ∧
      1 ≤ m ∧ depthOf l t.id = m ∧
      ((t.dependencies = [] ∧ m = 1) ∨
       (t.dependencies ≠ [] ∧
        m = 1 + t.dependencies.foldl
          (fun a d => max a ((cacheGet (depthFold l).2 d).getD 0)) 0)) := by
    intro t ht
    obtain ⟨m, hm, hm1⟩ := hvals t ht
    obtain ⟨t', ht'f, hrec⟩ := hgood t.id m hm hm1
    have ht't : t' = t := by
      have := find?_id_of_nodup hnd ht
      rw [this] at ht'f
      exact (Option.some.injEq _ _ ▸ ht'f).symm
    subst ht't
    refine ⟨m, hm, hm1, by simp [depthOf, hm], ?_⟩
    rcases hrec with ⟨h1, h2⟩ | ⟨h1, -, h3⟩
    · exact Or.inl ⟨h1, h2⟩
    · exact Or.inr ⟨h1, h3⟩
  refine ⟨?_, ?_, ?_⟩
  · intro t ht hnil
    obtain ⟨m, -, -, hdval, hrec⟩ := hkey t ht
    rcases hrec with ⟨-, hm1⟩ | ⟨hne, -⟩
    · rw [hdval, hm1]
    · exact absurd hnil hne
  · intro t ht hne
    obtain ⟨m, -, -, hdval, hrec⟩ := hkey t ht
    rcases hrec with ⟨hnil, -⟩ | ⟨-, hm1⟩
    · exact absurd hnil hne
    · rw [hdval, hm1]
      rfl
  · rw [calculate_max_dependency_depth, hmax]
    rfl

/-! ## Claim C3: depth and critical-path metrics -/

/-- C3.  For every acyclic TodoList with distinct ids and resolvable
dependencies: a todo with no dependencies has computed depth 1; a todo with
dependencies has depth 1 plus the maximum depth over its dependencies; the
reported `max_depth` is the maximum depth over all todos, and
`critical_path_length` equals `max_depth`.  For the chain t1 ← t2 ← t3, the
depths are 1, 2, 3 and the critical-path length is 3.  Whenever a cycle is
present, `max_depth` and `critical_path_length` are both reported as 0. -/
theorem c3_depth_and_critical_path (l : TodoList)
    (hnd : (l.todos.map Todo.id).Nodup)
    (hres : ∀ t ∈ l.todos, ∀ d ∈ t.dependencies, d ∈ l.todos.map Todo.id)
    (hacyc : Acyclic l) :
    (∀ t ∈ l.todos, t.dependencies = [] → depthOf l t.id = 1) ∧
    (∀ t ∈ l.todos, t.dependencies ≠ [] →
      depthOf l t.id
        = 1 + t.dependencies.foldl (fun a d => max a (depthOf l d)) 0) ∧
    (calculate_dependency_metrics l).max_depth
      = l.todos.foldl (fun a t => max a (depthOf l t.id)) 0 ∧
    (calculate_dependency_metrics l).critical_path_length
      = (calculate_dependency_metrics l).max_depth ∧
    (depthOf chainList "t1" = 1 ∧ depthOf chainList "t2" = 2 ∧
      depthOf chainList "t3" = 3 ∧
      (calculate_dependency_metrics chainList).critical_path_length = 3) ∧
    (∀ l' : TodoList, (calculate_dependency_metrics l').has_cycles = true →
      (calculate_dependency_metrics l').max_depth = 0 ∧
      (calculate_dependency_metrics l').critical_path_length = 0) := by
  have hcyc0 : ∀ l' : TodoList,
      (calculate_dependency_metrics l').has_cycles = true →
      (calculate_dependency_metrics l').max_depth = 0 ∧
      (calculate_dependency_metrics l').critical_path_length = 0 := by
    intro l' h
    revert h
    unfold calculate_dependency_metrics
    rcases l'.validate_dependencies with - | -
    · intro h
      refine ⟨?_, ?_⟩ <;> rfl
    · intro h
      simp at h
  have hmetrics : ∀ l'' : TodoList, (l''.todos.map Todo.id).Nodup →
      Acyclic l'' →
      (calculate_dependency_metrics l'').max_depth
        = calculate_max_dependency_depth l'' ∧
      (calculate_dependency_metrics l'').critical_path_length
        = calculate_max_dependency_depth l'' := by
    intro l'' hnd'' hacyc''
    have hok : l''.validate_dependencies = Except.ok () := by
      rw [validate_dependencies_ok_iff]
      exact processed_full_of_acyclic hnd'' hacyc''
    unfold calculate_dependency_metrics
    rw [hok]
    exact ⟨rfl, rfl⟩
  obtain ⟨hleaf, hstepd, hmax⟩ := depth_recurrence l hnd hres hacyc
  have hcritical : (calculate_dependency_metrics l).critical_path_length
      = (calculate_dependency_metrics l).max_depth := by
    obtain ⟨h1, h2⟩ := hmetrics l hnd hacyc
    rw [h1, h2]
  -- Scenario A on the concrete chain
  have hndc : (chainList.todos.map Todo.id).Nodup := by decide
  have hresc : ∀ t ∈ chainList.todos, ∀ d ∈ t.dependencies,
      d ∈ chainList.todos.map Todo.id := by decide
  have hacycc : Acyclic chainList :=
    acyclic_of_processed_full hndc rfl
  obtain ⟨hleafc, hstepc, hmaxc⟩ := depth_recurrence chainList hndc hresc hacycc
  have ht1mem : fixtureTodo "t1" [] ∈ chainList.todos := by
    simp [chainList, fixtureList]
  have ht2mem : fixtureTodo "t2" ["t1"] ∈ chainList.todos := by
    simp [chainList, fixtureList]
  have ht3mem : fixtureTodo "t3" ["t2"] ∈ chainList.todos := by
    simp [chainList, fixtureList]
  have hd1 : depthOf chainList "t1" = 1 :=
    hleafc (fixtureTodo "t1" []) ht1mem rfl
  have hd2 : depthOf chainList "t2" = 2 := by
    have := hstepc (fixtureTodo "t2" ["t1"]) ht2mem (by simp [fixtureTodo])
    simp only [fixtureTodo] at this
    rw [this, List.foldl_cons, List.foldl_nil, hd1]
    rfl
  have hd3 : depthOf chainList "t3" = 3 := by
    have := hstepc (fixtureTodo "t3" ["t2"]) ht3mem (by simp [fixtureTodo])
    simp only [fixtureTodo] at this
    rw [this, List.foldl_cons, List.foldl_nil, hd2]
    rfl
  have hmaxcval : calculate_max_dependency_depth chainList = 3 := by
    rw [hmaxc]
    show max (max (max 0 (depthOf chainList "t1"))
      (depthOf chainList "t2")) (depthOf chainList "t3") = 3
    rw [hd1, hd2, hd3]
    rfl
  have hcritc : (calculate_dependency_metrics chainList).critical_path_length
      = 3 := by
    obtain ⟨-, h2⟩ := hmetrics chainList hndc hacycc
    rw [h2, hmaxcval]
  refine ⟨hleaf, hstepd, ?_, hcritical, ⟨hd1, hd2, hd3, hcritc⟩, hcyc0⟩
  rw [(hmetrics l hnd hacyc).1, hmax]

/-- Witness for C3 at the concrete chain t1 ← t2 ← t3. -/
theorem c3_depth_and_critical_path_witness :
    (chainList.todos.map Todo.id).Nodup ∧
    (∀ t ∈ chainList.todos, ∀ d ∈ t.dependencies,
      d ∈ chainList.todos.map Todo.id) ∧
    Acyclic chainList ∧
    (depthOf chainList "t1" = 1 ∧ depthOf chainList "t2" = 2 ∧
      depthOf chainList "t3" = 3 ∧
      (calculate_dependency_metrics chainList).critical_path_length = 3) := by
  have hndc : (chainList.todos.map Todo.id).Nodup := by decide
  have hacycc : Acyclic chainList := acyclic_of_processed_full hndc rfl
  exact ⟨hndc, by decide, hacycc,
    (c3_depth_and_critical_path chainList hndc (by decide) hacycc).2.2.2.2.1⟩

/-! ## Claim C4: validity is exactly absence of Error issues -/

/-- C4.  For every TodoList and every TodoQualityConfig, the result of
`validate_todo_list` has `is_valid = true` if and only if no issue in its
issues list has severity Error; Warning and Info issues never make
`is_valid` false. -/
theorem c4_is_valid_iff_no_error (config : TodoQualityConfig)
    (todo_list : TodoList) :
    (validate_todo_list config todo_list).is_valid = true ↔
      ∀ issue ∈ (validate_todo_list config todo_list).issues,
        issue.severity ≠ IssueSeverity.Error := by
  show (! List.any _ _) = true ↔ _
  rw [Bool.not_eq_true', ← Bool.not_eq_true, List.any_eq_true]
  push_neg
  constructor
  · intro h issue hmem
    have := h issue hmem
    simpa using this
  · intro h issue hmem
    simpa using h issue hmem

/-! ## Claim C5: the weighted quality score -/

/-- C5.  For every TodoList and config the overall quality score is the
weighted average 0.3·actionability + 0.2·proper-length +
0.2·reasonable-complexity + 0.2·time-estimate + 0.1·dependency-validity of
ratios each in [0,1] (the time-estimate term forced to 1 when estimates are
not required, the dependency term 0 with cycles and 1 otherwise); the score
lies in [0,1], is exactly 0 for an empty list, and is exactly 1 when every
task is actionable, correctly sized, low-complexity, estimated, and the
graph is acyclic. -/
theorem c5_quality_score_bounds (config : TodoQualityConfig)
    (todo_list : TodoList) :
    (0 ≤ calculate_quality_score config (calculate_metrics config todo_list) ∧
      calculate_quality_score config (calculate_metrics config todo_list) ≤ 1) ∧
    (todo_list.todos = [] →
      calculate_quality_score config (calculate_metrics config todo_list)
        = 0) ∧
    (todo_list.todos ≠ [] →
      calculate_quality_score config (calculate_metrics config todo_list)
        = ((calculate_metrics config todo_list).actionable_count : Rat)
            / (calculate_metrics config todo_list).total_count * (3 / 10)
          + ((calculate_metrics config todo_list).proper_length_count : Rat)
            / (calculate_metrics config todo_list).total_count * (1 / 5)
          + ((calculate_metrics config todo_list).reasonable_complexity_count :
              Rat) / (calculate_metrics config todo_list).total_count * (1 / 5)
          + (if config.require_time_estimates then
              ((calculate_metrics config todo_list).estimated_count : Rat)
                / (calculate_metrics config todo_list).total_count
            else 1) * (1 / 5)
          + (if (calculate_metrics config
                todo_list).dependency_metrics.has_cycles then (0 : Rat)
            else 1) * (1 / 10)) ∧
    (todo_list.todos ≠ [] →
      (∀ t ∈ todo_list.todos, t.is_actionable = true) →
      (∀ t ∈ todo_list.todos, t.has_valid_length
        (config.min_task_detail_chars.getD 10)
        (config.max_task_detail_chars.getD 100) = true) →
      (∀ t ∈ todo_list.todos,
        t.complexity_score ≤ config.max_complexity_per_task.getD 8) →
      (∀ t ∈ todo_list.todos, t.estimated_hours.isSome = true) →
      (calculate_dependency_metrics todo_list).has_cycles = false →
      calculate_quality_score config (calculate_metrics config todo_list)
        = 1) := by
  have htc : (calculate_metrics config todo_list).total_count
      = todo_list.todos.length := rfl
  have hact : (calculate_metrics config todo_list).actionable_count
      = (todo_list.todos.filter fun t => t.is_actionable).length := rfl
  have hlen : (calculate_metrics config todo_list).proper_length_count
      = (todo_list.todos.filter fun t => t.has_valid_length
          (config.min_task_detail_chars.getD 10)
          (config.max_task_detail_chars.getD 100)).length := rfl
  have hest : (calculate_metrics config todo_list).estimated_count
      = (todo_list.todos.filter fun t => t.estimated_hours.isSome).length :=
    rfl
  have hcplx : (calculate_metrics config todo_list).reasonable_complexity_count
      = (todo_list.todos.filter fun t =>
          t.complexity_score ≤ config.max_complexity_per_task.getD 8).length :=
    rfl
  have hdm : (calculate_metrics config todo_list).dependency_metrics
      = calculate_dependency_metrics todo_list := rfl
  by_cases h0 : (calculate_metrics config todo_list).total_count = 0
  · have hscore : calculate_quality_score config
        (calculate_metrics config todo_list) = 0 := by
      unfold calculate_quality_score
      rw [if_pos h0]
    have hnil : todo_list.todos = [] := by
      rw [htc] at h0
      exact List.length_eq_zero.mp h0
    refine ⟨⟨by rw [hscore], by rw [hscore]; norm_num⟩,
      fun _ => hscore, fun hne => absurd hnil hne, fun hne => absurd hnil hne⟩
  · have hpos : 0 < ((calculate_metrics config todo_list).total_count : Rat) := by
      have : 0 < (calculate_metrics config todo_list).total_count :=
        Nat.pos_of_ne_zero h0
      exact_mod_cast this
    have hformula : calculate_quality_score config
        (calculate_metrics config todo_list)
        = ((calculate_metrics config todo_list).actionable_count : Rat)
            / (calculate_metrics config todo_list).total_count * (3 / 10)
          + ((calculate_metrics config todo_list).proper_length_count : Rat)
            / (calculate_metrics config todo_list).total_count * (1 / 5)
          + ((calculate_metrics config todo_list).reasonable_complexity_count :
              Rat) / (calculate_metrics config todo_list).total_count * (1 / 5)
          + (if config.require_time_estimates then
              ((calculate_metrics config todo_list).estimated_count : Rat)
                / (calculate_metrics config todo_list).total_count
            else 1) * (1 / 5)
          + (if (calculate_metrics config
                todo_list).dependency_metrics.has_cycles then (0 : Rat)
            else 1) * (1 / 10) := by
      unfold calculate_quality_score
      rw [if_neg h0]
    have hratio : ∀ c n : Nat, c ≤ n → 0 < (n : Rat) →
        0 ≤ (c : Rat) / n ∧ (c : Rat) / n ≤ 1 := by
      intro c n hc hn
      constructor
      · positivity
      · rw [div_le_one hn]
        exact_mod_cast hc
    have hfle : ∀ p : Todo → Bool,
        (todo_list.todos.filter p).length ≤
          (calculate_metrics config todo_list).total_count := by
      intro p
      rw [htc]
      exact List.length_filter_le _ _
    obtain ⟨ha0, ha1⟩ := hratio _ _ (hact ▸ hfle _) hpos
    obtain ⟨hb0, hb1⟩ := hratio _ _ (hlen ▸ hfle _) hpos
    obtain ⟨hc0, hc1⟩ := hratio _ _ (hcplx ▸ hfle _) hpos
    obtain ⟨hd0, hd1⟩ := hratio _ _ (hest ▸ hfle _) hpos
    have hestb : 0 ≤ (if config.require_time_estimates then
        ((calculate_metrics config todo_list).estimated_count : Rat)
          / (calculate_metrics config todo_list).total_count
      else 1) ∧ (if config.require_time_estimates then
        ((calculate_metrics config todo_list).estimated_count : Rat)
          / (calculate_metrics config todo_list).total_count
      else 1) ≤ 1 := by
      by_cases hreq : config.require_time_estimates <;> simp [hreq]
      · exact ⟨hd0, hd1⟩
    have hdepb : 0 ≤ (if (calculate_metrics config
          todo_list).dependency_metrics.has_cycles then (0 : Rat) else 1) ∧
        (if (calculate_metrics config
          todo_list).dependency_metrics.has_cycles then (0 : Rat) else 1)
          ≤ 1 := by
      by_cases hcy : (calculate_metrics config
          todo_list).dependency_metrics.has_cycles <;> simp [hcy]
    refine ⟨⟨?_, ?_⟩, ?_, fun _ => hformula, ?_⟩
    · rw [hformula]
      have := hestb.1
      have := hdepb.1
      positivity
    · rw [hformula]
      nlinarith [hestb.1, hestb.2, hdepb.1, hdepb.2, ha0, ha1, hb0, hb1,
        hc0, hc1]
    · intro hnil
      rw [htc] at h0
      rw [hnil] at h0
      simp at h0
    · intro hne hallact halllen hallcplx hallest hnocyc
      have hone : ∀ p : Todo → Bool, (∀ t ∈ todo_list.todos, p t = true) →
          ((todo_list.todos.filter p).length : Rat)
            / (calculate_metrics config todo_list).total_count = 1 := by
        intro p hp
        rw [List.filter_eq_self.mpr hp, htc]
        exact div_self (by exact_mod_cast Nat.pos_of_ne_zero (htc ▸ h0) |>.ne')
      rw [hformula]
      rw [hact, hone _ hallact, hlen, hone _ halllen]
      rw [hcplx, hone _ (fun t ht => by simpa using hallcplx t ht)]
      have hestone : (if config.require_time_estimates then
          ((calculate_metrics config todo_list).estimated_count : Rat)
            / (calculate_metrics config todo_list).total_count
        else 1) = 1 := by
        by_cases hreq : config.require_time_estimates
        · rw [if_pos hreq, hest, hone _ hallest]
        · rw [if_neg hreq]
      have hdepone : (if (calculate_metrics config
          todo_list).dependency_metrics.has_cycles then (0 : Rat) else 1)
          = 1 := by
        rw [hdm, hnocyc]
        simp
      rw [hestone, hdepone]
      norm_num

/-- Witness for C4 at the default config and the perfect one-task list. -/
theorem c4_is_valid_iff_no_error_witness :
    (validate_todo_list TodoQualityConfig.default perfectList).is_valid
        = true ↔
      ∀ issue ∈ (validate_todo_list TodoQualityConfig.default
          perfectList).issues,
        issue.severity ≠ IssueSeverity.Error :=
  c4_is_valid_iff_no_error TodoQualityConfig.default perfectList

/-- Witness for C5 at the default config and the perfect one-task list. -/
theorem c5_quality_score_bounds_witness :
    perfectList.todos ≠ [] ∧
    calculate_quality_score TodoQualityConfig.default
      (calculate_metrics TodoQualityConfig.default perfectList) = 1 :=
  ⟨by decide,
    (c5_quality_score_bounds TodoQualityConfig.default perfectList).2.2.2
      (by decide) (by decide) (by decide) (by decide) (by decide) rfl⟩

end Pdmt
